import Mathlib

/-!
Shallow embedding of `src/navigation/include/navigation/Graph.h` (class `Graph`).

Conventions of the embedding:
* C++ `float`/`double` coordinates and distances are modelled by `ℚ`; the claims
  under verification are about exact arithmetic relations (blends, squared
  distances, strict comparisons), not about rounding.
* The IEEE value `+infinity`, used as the initial minimum/distance, is modelled
  by `Option ℚ` with `none` standing for infinity (comparisons `ltO`, `ltOO`,
  addition `addO` mirror the IEEE behaviour on the values that actually occur:
  no NaN ever arises because squared distances are finite).
* Waypoint ids and link fields are C++ `int`, modelled by `Int`; the sentinel
  values `-1` (unknown) and `-2` (blocked) are kept as in the source.
* `std::vector<navigation_msgs::Node> _nodes` is a `List Node`; indexing with
  an out-of-range id is undefined behaviour in the source, so the model makes
  such accesses total no-ops / defaults and every theorem about the mutating
  operations restricts to in-range ids.
* The runtime parameters `_dist_thresh` and `_update_positions` are fields of
  the `Graph` state (fixed configuration). The member `_next_node_id` of the
  source is set in the constructor and never read or written afterwards; it is
  omitted.
-/

namespace RobotNav

/-- `#define NAV_GRAPH_UNKNOWN -1` -/
def NAV_GRAPH_UNKNOWN : Int := -1

/-- `#define NAV_GRAPH_BLOCKED -2` -/
def NAV_GRAPH_BLOCKED : Int := -2

/-- `enum Directions` of the source: North = 0. -/
def North : Int := 0

/-- East = 1. -/
def East : Int := 1

/-- South = 2. -/
def South : Int := 2

/-- West = 3. -/
def West : Int := 3

/-- `navigation_msgs::Node`: the fields the core reads and writes.
ROS message fields default-initialize to zero / false. -/
structure Node where
  id_this : Int := 0
  x : ℚ := 0
  y : ℚ := 0
  id_north : Int := 0
  id_east : Int := 0
  id_south : Int := 0
  id_west : Int := 0
  object_here : Bool := false
  deriving Repr, DecidableEq, Inhabited

/-- `navigation_msgs::PlaceNodeRequest`: the fields the core reads. -/
structure PlaceNodeRequest where
  north_blocked : Bool := false
  east_blocked : Bool := false
  south_blocked : Bool := false
  west_blocked : Bool := false
  id_previous : Int := 0
  direction : Int := 0
  object_x : ℚ := 0
  object_y : ℚ := 0
  object_direction : Int := 0
  deriving Repr, DecidableEq, Inhabited

/-- The `Graph` state: the node store plus the two configuration parameters. -/
structure Graph where
  nodes : List Node := []
  dist_thresh : ℚ
  update_positions : Bool
  deriving Repr, DecidableEq

/-- Read `_nodes[i]` (total model of C++ `operator[]`; theorems restrict to
in-range indices, where the `default` branch is irrelevant). -/
def getNodeD (g : Graph) (i : Int) : Node :=
  g.nodes.getD i.toNat default

/-- Write `_nodes[i] := f _nodes[i]`; out-of-range writes (UB in the C++)
are modelled as leaving the store unchanged. -/
def modifyNode (g : Graph) (i : Int) (f : Node → Node) : Graph :=
  if i < 0 then g
  else { g with nodes := g.nodes.set i.toNat (f (g.nodes.getD i.toNat default)) }

/-- `double sq_dist(double x0, double y0, double x1, double y1)`. -/
def sq_dist (x0 y0 x1 y1 : ℚ) : ℚ :=
  (x1 - x0) * (x1 - x0) + (y1 - y0) * (y1 - y0)

/-- `Graph::init_node`: seed the four links from the blocked flags and clear
`object_here`. -/
def init_node (node : Node) (blocked_north blocked_east blocked_south blocked_west : Bool) : Node :=
  { node with
    id_east := if blocked_east then NAV_GRAPH_BLOCKED else NAV_GRAPH_UNKNOWN
    id_north := if blocked_north then NAV_GRAPH_BLOCKED else NAV_GRAPH_UNKNOWN
    id_south := if blocked_south then NAV_GRAPH_BLOCKED else NAV_GRAPH_UNKNOWN
    id_west := if blocked_west then NAV_GRAPH_BLOCKED else NAV_GRAPH_UNKNOWN
    object_here := false }

/-- `Graph::set_connected(id, dir, id_next)`: set the link of `id` in direction
`dir` to `id_next` and the opposite link of `id_next` back to `id`.  The two
writes are sequential, which also models the C++ aliasing when `id = id_next`.
For a direction outside 0..3 the source logs `ROS_ERROR` and returns normally
without mutating anything; the model returns the graph unchanged. -/
def set_connected (g : Graph) (id dir id_next : Int) : Graph :=
  if dir = North then
    modifyNode (modifyNode g id (fun n => { n with id_north := id_next }))
      id_next (fun n => { n with id_south := id })
  else if dir = East then
    modifyNode (modifyNode g id (fun n => { n with id_east := id_next }))
      id_next (fun n => { n with id_west := id })
  else if dir = South then
    modifyNode (modifyNode g id (fun n => { n with id_south := id_next }))
      id_next (fun n => { n with id_north := id })
  else if dir = West then
    modifyNode (modifyNode g id (fun n => { n with id_west := id_next }))
      id_next (fun n => { n with id_east := id })
  else g

/-- `Graph::update_position(float& x, float& y, float new_x, float new_y)`:
the 70/30 blend, gated on `_update_positions`. -/
def update_position (flag : Bool) (x y new_x new_y : ℚ) : ℚ × ℚ :=
  if flag then (0.3 * x + 0.7 * new_x, 0.3 * y + 0.7 * new_y) else (x, y)

/-- Apply `update_position` to the stored coordinates of node `i`
(the call sites pass `_nodes[i].x, _nodes[i].y` by reference). -/
def update_position_at (g : Graph) (i : Int) (new_x new_y : ℚ) : Graph :=
  modifyNode g i (fun n =>
    let p := update_position g.update_positions n.x n.y new_x new_y
    { n with x := p.1, y := p.2 })

/-- `d < m` where `m : Option ℚ` models a possibly-infinite running minimum. -/
def ltO (d : ℚ) : Option ℚ → Bool
  | none => true
  | some m => decide (d < m)

/-- `d < t` where `d : Option ℚ` models a possibly-infinite value. -/
def ltOq : Option ℚ → ℚ → Bool
  | none, _ => false
  | some d, t => decide (d < t)

/-- The scan loop of `Graph::on_node`: walk the node list keeping the index of
the closest node so far (`c`, initialized 0) and the running minimum squared
distance (`m`, initialized infinity); `i` is the index of the next element. -/
def scanMin (x y : ℚ) : List Node → Nat → Nat → Option ℚ → Nat × Option ℚ
  | [], _, c, m => (c, m)
  | n :: rest, i, c, m =>
    let d := sq_dist x y n.x n.y
    if ltO d m then scanMin x y rest (i + 1) i (some d)
    else scanMin x y rest (i + 1) c m

/-- `Graph::on_node(x, y, node)`: returns `some` of the closest stored node if
its squared distance to `(x, y)` is strictly below `_dist_thresh²`, else
`none` (the C++ returns the node through an out-parameter and a `bool`). -/
def on_node (g : Graph) (x y : ℚ) : Option Node :=
  let sq_dist_thresh := g.dist_thresh * g.dist_thresh
  let r := scanMin x y g.nodes 0 0 none
  if ltOq r.2 sq_dist_thresh then g.nodes.get? r.1 else none

/-- `Graph::place_node(x, y, request)`: dedup against the store, create and
link a fresh node on a miss, merge (with optional smoothing) on a hit.
Returns the pair of the returned node reference's value at return time and
the post-state. -/
def place_node (x y : ℚ) (request : PlaceNodeRequest) (g : Graph) : Node × Graph :=
  match on_node g x y with
  | none =>
    let node : Node :=
      { init_node {} request.north_blocked request.east_blocked
          request.south_blocked request.west_blocked with
        x := x, y := y, id_this := Int.ofNat g.nodes.length }
    let g1 : Graph := { g with nodes := g.nodes ++ [node] }
    let g2 : Graph :=
      if g1.nodes.length > 1 then
        set_connected g1 request.id_previous request.direction node.id_this
      else g1
    (getNodeD g2 node.id_this, g2)
  | some node =>
    let g1 := update_position_at g node.id_this x y
    (getNodeD g1 node.id_this, g1)

/-- `Graph::place_object(id_origin, request)`: dedup against the store at the
object position; create a fully-blocked object node unless an existing object
node is nearby, then unconditionally connect the origin to the result. -/
def place_object (id_origin : Int) (request : PlaceNodeRequest) (g : Graph) : Node × Graph :=
  let neighborQ := on_node g request.object_x request.object_y
  match neighborQ with
  | none =>
    let node : Node :=
      { init_node {} true true true true with
        object_here := true, x := request.object_x, y := request.object_y,
        id_this := Int.ofNat g.nodes.length }
    let g1 : Graph := { g with nodes := g.nodes ++ [node] }
    let g2 := set_connected g1 id_origin request.object_direction node.id_this
    (getNodeD g2 node.id_this, g2)
  | some neighbor =>
    if neighbor.object_here = false then
      let node : Node :=
        { init_node {} true true true true with
          object_here := true, x := request.object_x, y := request.object_y,
          id_this := Int.ofNat g.nodes.length }
      let g1 : Graph := { g with nodes := g.nodes ++ [node] }
      let g2 := set_connected g1 id_origin request.object_direction node.id_this
      (getNodeD g2 node.id_this, g2)
    else
      let g1 := update_position_at g neighbor.id_this request.object_x request.object_y
      let g2 := set_connected g1 id_origin request.object_direction neighbor.id_this
      (getNodeD g2 neighbor.id_this, g2)

/-- Errors of the interface. `Graph::get_node` logs and then calls
`std::vector::at`, which throws `std::out_of_range` for an invalid index. -/
inductive GraphError where
  | outOfRange
  deriving Repr, DecidableEq

/-- `Graph::get_node(id)`: `std::vector::at` semantics — an exception
(modelled as `Except.error`) outside `[0, _nodes.size())`, the stored node
otherwise. -/
def get_node (g : Graph) (id : Int) : Except GraphError Node :=
  if id < 0 ∨ (g.nodes.length : Int) ≤ id then .error .outOfRange
  else .ok (g.nodes.getD id.toNat default)

/-- `Graph::has_unkown_directions(id)` (spelling as in the source). -/
def has_unkown_directions (g : Graph) (id : Int) : Bool :=
  let n := getNodeD g id
  n.id_north == NAV_GRAPH_UNKNOWN || n.id_east == NAV_GRAPH_UNKNOWN ||
  n.id_south == NAV_GRAPH_UNKNOWN || n.id_west == NAV_GRAPH_UNKNOWN

/-- `a + b` with `a` possibly infinite. -/
def addO : Option ℚ → ℚ → Option ℚ
  | none, _ => none
  | some a, b => some (a + b)

/-- `a < b` with both sides possibly infinite (IEEE: `inf < inf` is false). -/
def ltOO : Option ℚ → Option ℚ → Bool
  | none, _ => false
  | some _, none => true
  | some a, some b => decide (a < b)

/-- The mutable state of the relaxation loop of `Graph::path_to_poi`.  The
node store is threaded through the loop because the C++ passes `_nodes` by
non-const reference into `update_dijkstra`. -/
structure BfsState where
  nodes : List Node
  queue : List Int
  previous : List Int
  distances : List (Option ℚ)
  visited : List Bool
  deriving Repr, DecidableEq

/-- Free function `update_dijkstra(id, id_next, nodes, previous, distances)`:
relax the edge `id → id_next`; returns whether an improvement happened
together with the updated arrays. -/
def update_dijkstra (id id_next : Int) (nodes : List Node)
    (previous : List Int) (distances : List (Option ℚ)) :
    Bool × List Int × List (Option ℚ) :=
  let node := nodes.getD id.toNat default
  let next := nodes.getD id_next.toNat default
  let d := addO (distances.getD id.toNat none) (sq_dist node.x node.y next.x next.y)
  if ltOO d (distances.getD id_next.toNat none) then
    (true, previous.set id_next.toNat id, distances.set id_next.toNat d)
  else
    (false, previous, distances)

/-- One `if (node.id_dir >= 0) { if (update_dijkstra(...)) queue.push(...); }`
block of the relaxation loop. -/
def relaxDir (id link : Int) (s : BfsState) : BfsState :=
  if 0 ≤ link then
    let r := update_dijkstra id link s.nodes s.previous s.distances
    if r.1 then
      { s with previous := r.2.1, distances := r.2.2, queue := s.queue ++ [link] }
    else
      { s with previous := r.2.1, distances := r.2.2 }
  else s

/-- The `while (!queue.empty())` loop of `Graph::path_to_poi`, fuel-bounded.
The C++ loop terminates: every pop removes one queue element and pushes occur
only on a strict distance improvement following a first visit, at most four
per first visit, so at most `1 + 4·n` elements ever enter the queue; any fuel
of at least `1 + 4·n` iterations reproduces the loop exactly. -/
def bfsLoop : Nat → BfsState → BfsState
  | 0, s => s
  | fuel + 1, s =>
    match s.queue with
    | [] => s
    | id :: rest =>
      let s1 := { s with queue := rest }
      if s1.visited.getD id.toNat false then bfsLoop fuel s1
      else
        let s2 := { s1 with visited := s1.visited.set id.toNat true }
        let node := s2.nodes.getD id.toNat default
        let s3 := relaxDir id node.id_north s2
        let s4 := relaxDir id node.id_east s3
        let s5 := relaxDir id node.id_south s4
        let s6 := relaxDir id node.id_west s5
        bfsLoop fuel s6

/-- The post-relaxation scan `for (i = 0; i < _nodes.size(); ++i)` picking the
first index with `filter[i] && distances[i] < min_dist` (running strict
minimum, `i_min_dist` initialized 0, `min_dist` initialized infinity). -/
def scanPoiGo : List (Bool × Option ℚ) → Nat → Nat → Option ℚ → Nat
  | [], _, imin, _ => imin
  | (f, d) :: rest, i, imin, m =>
    if f && ltOO d m then scanPoiGo rest (i + 1) i d
    else scanPoiGo rest (i + 1) imin m

/-- Scan of filter and distance arrays (both have length `_nodes.size()`). -/
def scanPoi (filter : List Bool) (distances : List (Option ℚ)) : Nat :=
  scanPoiGo (filter.zip distances) 0 0 none

/-- The reconstruction loop `while (cur != id_from) { cur = previous[cur];
path.push_back(cur); }`, fuel-bounded.  When the predecessor chain is intact
it reaches `id_from` within `n` steps; when it is broken the C++ reads
`previous[-1]` (undefined behaviour) — the model stops when it would index a
negative entry, and no theorem relies on that case. -/
def buildPath : Nat → Int → Int → List Int → List Int → List Int
  | 0, _, _, _, path => path
  | fuel + 1, cur, id_from, previous, path =>
    if cur = id_from then path
    else
      let nxt := previous.getD cur.toNat (-1)
      buildPath fuel nxt id_from previous (path ++ [nxt])

/-- `Graph::path_to_poi(id_from, filter, path)`.  `path` is the caller's
vector (an out-parameter): on an empty store the function returns before
clearing it.  Returns the final contents of `path` together with the node
store after the call (threaded through the relaxation loop). -/
def path_to_poi (g : Graph) (id_from : Int) (filter : List Bool)
    (path : List Int) : List Int × List Node :=
  if g.nodes.length = 0 then (path, g.nodes)
  else
    let n := g.nodes.length
    let previous : List Int := List.replicate n (-1)
    let distances : List (Option ℚ) :=
      (List.replicate n (none : Option ℚ)).set id_from.toNat (some 0)
    let visited : List Bool := List.replicate n false
    let s0 : BfsState := ⟨g.nodes, [id_from], previous, distances, visited⟩
    let s := bfsLoop (5 * (n + 1)) s0
    let i_min_dist := scanPoi filter s.distances
    let p := buildPath (n + 1) (Int.ofNat i_min_dist) id_from s.previous
      [Int.ofNat i_min_dist]
    (p.reverse, s.nodes)

/-- `Graph::path_to_next_unknown(id_from, path)`: filter = "has an `Unknown`
link". -/
def path_to_next_unknown (g : Graph) (id_from : Int) (path : List Int) :
    List Int × List Node :=
  let has_unkown := (List.range g.nodes.length).map
    (fun i => has_unkown_directions g (Int.ofNat i))
  path_to_poi g id_from has_unkown path

/-- `Graph::path_to_next_object(id_from, path)`: filter = `object_here`. -/
def path_to_next_object (g : Graph) (id_from : Int) (path : List Int) :
    List Int × List Node :=
  let is_object := g.nodes.map (fun n => n.object_here)
  path_to_poi g id_from is_object path

/-! ### Operation sequences and reachable states -/

/-- A mutating call of the interface: `place_node` or `place_object`. -/
inductive GOp where
  | pnode (x y : ℚ) (request : PlaceNodeRequest)
  | pobject (id_origin : Int) (request : PlaceNodeRequest)
  deriving Repr, DecidableEq

/-- Effect of one mutating call on the store. -/
def applyOp (g : Graph) : GOp → Graph
  | .pnode x y request => (place_node x y request g).2
  | .pobject id_origin request => (place_object id_origin request g).2

/-- Effect of a sequence of mutating calls. -/
def applyOps (g : Graph) (ops : List GOp) : Graph :=
  ops.foldl applyOp g

/-- The preconditions under which the C++ call has defined behaviour: every
id that the call uses to index `_nodes` is in range.  (An out-of-range
`direction` is not excluded: the source logs and continues, which is defined
behaviour.) -/
def opValid (g : Graph) : GOp → Bool
  | .pnode x y request =>
    match on_node g x y with
    | some found =>
      decide (0 ≤ found.id_this) && decide (found.id_this < (g.nodes.length : Int))
    | none =>
      decide (g.nodes.length = 0) ||
        (decide (0 ≤ request.id_previous) &&
         decide (request.id_previous < ((g.nodes.length : Int) + 1)))
  | .pobject id_origin request =>
    (match on_node g request.object_x request.object_y with
     | some found =>
       !found.object_here ||
         (decide (0 ≤ found.id_this) && decide (found.id_this < (g.nodes.length : Int)))
     | none => true) &&
    decide (0 ≤ id_origin) && decide (id_origin < (g.nodes.length : Int))

/-- A sequence of calls each of which is valid in the state it runs in. -/
def seqValid : Graph → List GOp → Bool
  | _, [] => true
  | g, op :: rest => opValid g op && seqValid (applyOp g op) rest

/-- The empty map with the given configuration. -/
def initGraph (thresh : ℚ) (smooth : Bool) : Graph :=
  { nodes := [], dist_thresh := thresh, update_positions := smooth }

/-! ### Statement helpers -/

/-- `dir` is one of the four cardinal values. -/
def validDir (dir : Int) : Prop :=
  dir = North ∨ dir = East ∨ dir = South ∨ dir = West

instance (dir : Int) : Decidable (validDir dir) := by
  unfold validDir; infer_instance

/-- The link of a node in a cardinal direction (helper for stating claims). -/
def linkInDir (n : Node) (dir : Int) : Int :=
  if dir = North then n.id_north
  else if dir = East then n.id_east
  else if dir = South then n.id_south
  else n.id_west

/-- The opposite cardinal direction, as the spec defines it
(North↔South, East↔West). -/
def oppositeDir (dir : Int) : Int :=
  if dir = North then South
  else if dir = East then West
  else if dir = South then North
  else East

/-- Ids are dense and equal to storage position. -/
def IdsDense (g : Graph) : Prop :=
  ∀ i : Fin g.nodes.length, (g.nodes.get i).id_this = Int.ofNat i.val

instance (g : Graph) : Decidable (IdsDense g) := by
  unfold IdsDense; infer_instance

/-- The four link fields of a node, as a tuple (helper for frame statements). -/
def linksOf (n : Node) : Int × Int × Int × Int :=
  (n.id_north, n.id_east, n.id_south, n.id_west)

/-- The stored coordinates of the node at (valid) position `i`. -/
def coordsAt (g : Graph) (i : Nat) : ℚ × ℚ :=
  let n := g.nodes.getD i default
  (n.x, n.y)

/-! ### Store lemmas -/

theorem getD_set_self {α : Type} (l : List α) (i : Nat) (v d : α) (h : i < l.length) :
    (l.set i v).getD i d = v := by
  rw [List.getD_eq_getElem?_getD, List.getElem?_set_self (by simpa using h)]
  rfl

theorem getD_set_ne {α : Type} (l : List α) (i j : Nat) (v d : α) (h : i ≠ j) :
    (l.set i v).getD j d = l.getD j d := by
  rw [List.getD_eq_getElem?_getD, List.getElem?_set_ne h, ← List.getD_eq_getElem?_getD]

theorem getD_append_left {α : Type} (l m : List α) (i : Nat) (d : α) (h : i < l.length) :
    (l ++ m).getD i d = l.getD i d := by
  rw [List.getD_append _ _ _ _ h]

theorem getD_append_length {α : Type} (l : List α) (v d : α) :
    (l ++ [v]).getD l.length d = v := by
  rw [List.getD_eq_getElem?_getD]
  simp

theorem getD_len_le {α : Type} (l : List α) (i : Nat) (d : α) (h : l.length ≤ i) :
    l.getD i d = d := by
  rw [List.getD_eq_getElem?_getD, List.getElem?_eq_none (by simpa using h)]
  rfl

theorem modifyNode_length (g : Graph) (i : Int) (f : Node → Node) :
    (modifyNode g i f).nodes.length = g.nodes.length := by
  unfold modifyNode
  split <;> simp

theorem modifyNode_dist_thresh (g : Graph) (i : Int) (f : Node → Node) :
    (modifyNode g i f).dist_thresh = g.dist_thresh := by
  unfold modifyNode
  split <;> rfl

theorem modifyNode_update_positions (g : Graph) (i : Int) (f : Node → Node) :
    (modifyNode g i f).update_positions = g.update_positions := by
  unfold modifyNode
  split <;> rfl

theorem getNodeD_modifyNode_self (g : Graph) (i : Int) (f : Node → Node)
    (h0 : 0 ≤ i) (h : i.toNat < g.nodes.length) :
    getNodeD (modifyNode g i f) i = f (getNodeD g i) := by
  unfold modifyNode getNodeD
  rw [if_neg (by omega)]
  simpa using getD_set_self g.nodes i.toNat _ default h

theorem getNodeD_modifyNode_ne (g : Graph) (i j : Int) (f : Node → Node)
    (h0 : 0 ≤ i) (h1 : 0 ≤ j) (hne : i ≠ j) :
    getNodeD (modifyNode g i f) j = getNodeD g j := by
  unfold modifyNode getNodeD
  rw [if_neg (by omega)]
  simpa using getD_set_ne g.nodes i.toNat j.toNat _ default (by omega)

/-- A projection of `Node` that `f` preserves is preserved at every position
by `modifyNode`. -/
theorem proj_modifyNode {α : Type} (p : Node → α) (g : Graph) (i : Int) (f : Node → Node)
    (hf : ∀ n, p (f n) = p n) (j : Int) :
    p (getNodeD (modifyNode g i f) j) = p (getNodeD g j) := by
  unfold modifyNode getNodeD
  split
  · rfl
  · simp only
    by_cases hij : i.toNat = j.toNat
    · rw [← hij]
      by_cases hlen : i.toNat < g.nodes.length
      · rw [getD_set_self _ _ _ _ hlen, hf]
      · rw [List.set_eq_of_length_le (by omega)]
    · rw [getD_set_ne _ _ _ _ _ hij]

/-- A projection untouched by all four single-link updates is preserved at
every position by `set_connected`. -/
theorem proj_set_connected {α : Type} (p : Node → α)
    (hn : ∀ n v, p { n with id_north := v } = p n)
    (he : ∀ n v, p { n with id_east := v } = p n)
    (hs : ∀ n v, p { n with id_south := v } = p n)
    (hw : ∀ n v, p { n with id_west := v } = p n)
    (g : Graph) (a dir b : Int) (j : Int) :
    p (getNodeD (set_connected g a dir b) j) = p (getNodeD g j) := by
  unfold set_connected
  split
  · rw [proj_modifyNode p _ _ _ (fun n => hs n a), proj_modifyNode p _ _ _ (fun n => hn n b)]
  split
  · rw [proj_modifyNode p _ _ _ (fun n => hw n a), proj_modifyNode p _ _ _ (fun n => he n b)]
  split
  · rw [proj_modifyNode p _ _ _ (fun n => hn n a), proj_modifyNode p _ _ _ (fun n => hs n b)]
  split
  · rw [proj_modifyNode p _ _ _ (fun n => he n a), proj_modifyNode p _ _ _ (fun n => hw n b)]
  · rfl

theorem set_connected_length (g : Graph) (a dir b : Int) :
    (set_connected g a dir b).nodes.length = g.nodes.length := by
  unfold set_connected
  split
  · rw [modifyNode_length, modifyNode_length]
  split
  · rw [modifyNode_length, modifyNode_length]
  split
  · rw [modifyNode_length, modifyNode_length]
  split
  · rw [modifyNode_length, modifyNode_length]
  · rfl

theorem set_connected_dist_thresh (g : Graph) (a dir b : Int) :
    (set_connected g a dir b).dist_thresh = g.dist_thresh := by
  unfold set_connected
  split
  · rw [modifyNode_dist_thresh, modifyNode_dist_thresh]
  split
  · rw [modifyNode_dist_thresh, modifyNode_dist_thresh]
  split
  · rw [modifyNode_dist_thresh, modifyNode_dist_thresh]
  split
  · rw [modifyNode_dist_thresh, modifyNode_dist_thresh]
  · rfl

theorem set_connected_update_positions (g : Graph) (a dir b : Int) :
    (set_connected g a dir b).update_positions = g.update_positions := by
  unfold set_connected
  split
  · rw [modifyNode_update_positions, modifyNode_update_positions]
  split
  · rw [modifyNode_update_positions, modifyNode_update_positions]
  split
  · rw [modifyNode_update_positions, modifyNode_update_positions]
  split
  · rw [modifyNode_update_positions, modifyNode_update_positions]
  · rfl

theorem set_connected_id_this (g : Graph) (a dir b j : Int) :
    (getNodeD (set_connected g a dir b) j).id_this = (getNodeD g j).id_this :=
  proj_set_connected (fun n => n.id_this)
    (fun _ _ => rfl) (fun _ _ => rfl) (fun _ _ => rfl) (fun _ _ => rfl) g a dir b j

theorem set_connected_x (g : Graph) (a dir b j : Int) :
    (getNodeD (set_connected g a dir b) j).x = (getNodeD g j).x :=
  proj_set_connected (fun n => n.x)
    (fun _ _ => rfl) (fun _ _ => rfl) (fun _ _ => rfl) (fun _ _ => rfl) g a dir b j

theorem set_connected_y (g : Graph) (a dir b j : Int) :
    (getNodeD (set_connected g a dir b) j).y = (getNodeD g j).y :=
  proj_set_connected (fun n => n.y)
    (fun _ _ => rfl) (fun _ _ => rfl) (fun _ _ => rfl) (fun _ _ => rfl) g a dir b j

theorem set_connected_object_here (g : Graph) (a dir b j : Int) :
    (getNodeD (set_connected g a dir b) j).object_here = (getNodeD g j).object_here :=
  proj_set_connected (fun n => n.object_here)
    (fun _ _ => rfl) (fun _ _ => rfl) (fun _ _ => rfl) (fun _ _ => rfl) g a dir b j

theorem update_position_at_length (g : Graph) (i : Int) (nx ny : ℚ) :
    (update_position_at g i nx ny).nodes.length = g.nodes.length :=
  modifyNode_length ..

theorem update_position_at_dist_thresh (g : Graph) (i : Int) (nx ny : ℚ) :
    (update_position_at g i nx ny).dist_thresh = g.dist_thresh :=
  modifyNode_dist_thresh ..

theorem update_position_at_update_positions (g : Graph) (i : Int) (nx ny : ℚ) :
    (update_position_at g i nx ny).update_positions = g.update_positions :=
  modifyNode_update_positions ..

theorem update_position_at_links (g : Graph) (i : Int) (nx ny : ℚ) (j : Int) :
    linksOf (getNodeD (update_position_at g i nx ny) j) = linksOf (getNodeD g j) := by
  unfold update_position_at
  apply proj_modifyNode
  intro n
  rfl

theorem update_position_at_id_this (g : Graph) (i : Int) (nx ny : ℚ) (j : Int) :
    (getNodeD (update_position_at g i nx ny) j).id_this = (getNodeD g j).id_this := by
  unfold update_position_at
  apply proj_modifyNode (fun n => n.id_this)
  intro n
  rfl

theorem update_position_at_object_here (g : Graph) (i : Int) (nx ny : ℚ) (j : Int) :
    (getNodeD (update_position_at g i nx ny) j).object_here = (getNodeD g j).object_here := by
  unfold update_position_at
  apply proj_modifyNode (fun n => n.object_here)
  intro n
  rfl

theorem Graph.eq_of_fields {g1 g2 : Graph} (h1 : g1.nodes = g2.nodes)
    (h2 : g1.dist_thresh = g2.dist_thresh)
    (h3 : g1.update_positions = g2.update_positions) : g1 = g2 := by
  cases g1
  cases g2
  simp_all

/-- The list `l.set i l[i]` is `l` itself. -/
theorem set_getD_self {α : Type} [Inhabited α] (l : List α) (i : Nat) :
    l.set i (l.getD i default) = l := by
  by_cases hlen : i < l.length
  · apply List.ext_getElem (by simp)
    intro k h1 h2
    by_cases hk : i = k
    · subst hk
      rw [List.getElem_set_self (by simpa using h1),
        List.getD_eq_getElem?_getD, List.getElem?_eq_getElem (by simpa using h1)]
      rfl
    · rw [List.getElem_set_ne hk]
  · rw [List.set_eq_of_length_le (by omega)]

/-- With smoothing off, `update_position` leaves the stored node unchanged,
so the merge branch of `place_node` does not modify the store at all. -/
theorem update_position_at_off (g : Graph) (i : Int) (nx ny : ℚ)
    (hoff : g.update_positions = false) : update_position_at g i nx ny = g := by
  have hf : ∀ n : Node,
      (let p := update_position g.update_positions n.x n.y nx ny
       ({ n with x := p.1, y := p.2 } : Node)) = n := by
    intro n
    simp [update_position, hoff]
  apply Graph.eq_of_fields
  · show (update_position_at g i nx ny).nodes = g.nodes
    unfold update_position_at modifyNode
    split
    · rfl
    · simp only
      rw [hf, set_getD_self]
  · exact update_position_at_dist_thresh ..
  · exact update_position_at_update_positions ..

/-! ### Characterization of the dedup scan (`Graph::on_node`) -/

/-- Squared distance from the query point to the `k`-th stored node. -/
def dAt (x y : ℚ) (l : List Node) (k : Nat) : ℚ :=
  sq_dist x y (l.getD k default).x (l.getD k default).y

theorem dAt_cons_zero (x y : ℚ) (n : Node) (t : List Node) :
    dAt x y (n :: t) 0 = sq_dist x y n.x n.y := rfl

theorem dAt_cons_succ (x y : ℚ) (n : Node) (t : List Node) (k : Nat) :
    dAt x y (n :: t) (k + 1) = dAt x y t k := rfl

/-- Invariant of the scan loop, for a finite running minimum `mv`: the result
is a finite minimum `m2 ≤ mv` that bounds every remaining distance, and either
nothing improved (`c2 = c`, `m2 = mv`) or the final winner is the first element
of the remainder that attains `m2`. -/
theorem scanMin_go (x y : ℚ) (l : List Node) : ∀ (i c : Nat) (mv : ℚ),
    ∃ c2 m2, scanMin x y l i c (some mv) = (c2, some m2) ∧ m2 ≤ mv ∧
      (∀ k, k < l.length → m2 ≤ dAt x y l k) ∧
      ((c2 = c ∧ m2 = mv) ∨
        ∃ j, j < l.length ∧ c2 = i + j ∧ m2 = dAt x y l j ∧ m2 < mv ∧
          ∀ k, k < j → m2 < dAt x y l k) := by
  induction l with
  | nil =>
    intro i c mv
    exact ⟨c, mv, rfl, le_refl _, by simp, Or.inl ⟨rfl, rfl⟩⟩
  | cons n t ih =>
    intro i c mv
    by_cases hd : sq_dist x y n.x n.y < mv
    · obtain ⟨c2, m2, hrec, hle, hmin, hcase⟩ := ih (i + 1) i (sq_dist x y n.x n.y)
      refine ⟨c2, m2, ?_, hle.trans hd.le, ?_, ?_⟩
      · simpa [scanMin, ltO, hd] using hrec
      · intro k hk
        cases k with
        | zero => simpa [dAt_cons_zero] using hle
        | succ k => simpa [dAt_cons_succ] using hmin k (by simpa using hk)
      · rcases hcase with ⟨hc2, hm2⟩ | ⟨j, hj, hc2, hm2, hlt, hfirst⟩
        · refine Or.inr ⟨0, by simp, by omega, ?_, ?_, by omega⟩
          · rw [dAt_cons_zero]; exact hm2
          · rw [hm2]; exact hd
        · refine Or.inr ⟨j + 1, by simpa using hj, by omega, ?_, hlt.trans hd, ?_⟩
          · rw [dAt_cons_succ]; exact hm2
          · intro k hk
            cases k with
            | zero => rw [dAt_cons_zero]; exact hlt
            | succ k => rw [dAt_cons_succ]; exact hfirst k (by omega)
    · obtain ⟨c2, m2, hrec, hle, hmin, hcase⟩ := ih (i + 1) c mv
      refine ⟨c2, m2, ?_, hle, ?_, ?_⟩
      · simpa [scanMin, ltO, hd] using hrec
      · intro k hk
        cases k with
        | zero =>
          rw [dAt_cons_zero]
          exact hle.trans (not_lt.mp hd)
        | succ k => simpa [dAt_cons_succ] using hmin k (by simpa using hk)
      · rcases hcase with ⟨hc2, hm2⟩ | ⟨j, hj, hc2, hm2, hlt, hfirst⟩
        · exact Or.inl ⟨hc2, hm2⟩
        · refine Or.inr ⟨j + 1, by simpa using hj, by omega, ?_, hlt, ?_⟩
          · rw [dAt_cons_succ]; exact hm2
          · intro k hk
            cases k with
            | zero =>
              rw [dAt_cons_zero]
              exact lt_of_lt_of_le hlt (not_lt.mp hd)
            | succ k => rw [dAt_cons_succ]; exact hfirst k (by omega)

/-- The top-level scan on a nonempty store returns the first index attaining
the minimum squared distance, together with that minimum. -/
theorem scanMin_char (x y : ℚ) (l : List Node) (h : l ≠ []) :
    ∃ c2 m2, scanMin x y l 0 0 none = (c2, some m2) ∧ c2 < l.length ∧
      m2 = dAt x y l c2 ∧ (∀ k, k < l.length → m2 ≤ dAt x y l k) ∧
      (∀ k, k < c2 → m2 < dAt x y l k) := by
  match l with
  | [] => exact absurd rfl h
  | n :: t =>
    obtain ⟨c2, m2, hrec, hle, hmin, hcase⟩ := scanMin_go x y t 1 0 (sq_dist x y n.x n.y)
    refine ⟨c2, m2, ?_, ?_, ?_, ?_, ?_⟩
    · simpa [scanMin, ltO] using hrec
    · rcases hcase with ⟨hc2, _⟩ | ⟨j, hj, hc2, _, _, _⟩
      · simp [hc2]
      · simp only [List.length_cons]
        omega
    · rcases hcase with ⟨hc2, hm2⟩ | ⟨j, hj, hc2, hm2, _, _⟩
      · rw [hc2, dAt_cons_zero]; exact hm2
      · have : c2 = j + 1 := by omega
        rw [this, dAt_cons_succ]; exact hm2
    · intro k hk
      cases k with
      | zero => rw [dAt_cons_zero]; exact hle
      | succ k => simpa [dAt_cons_succ] using hmin k (by simpa using hk)
    · intro k hk
      rcases hcase with ⟨hc2, _⟩ | ⟨j, hj, hc2, hm2, hlt, hfirst⟩
      · omega
      · have hcj : c2 = j + 1 := by omega
        cases k with
        | zero => rw [dAt_cons_zero]; exact hlt
        | succ k => rw [dAt_cons_succ]; exact hfirst k (by omega)

/-- The first index attaining the minimum is unique. -/
theorem first_min_unique {D : Nat → ℚ} {n c c2 : Nat}
    (hc : c < n) (hcmin : ∀ k, k < n → D c ≤ D k) (hcfirst : ∀ k, k < c → D c < D k)
    (hc2 : c2 < n) (hc2min : ∀ k, k < n → D c2 ≤ D k)
    (hc2first : ∀ k, k < c2 → D c2 < D k) : c = c2 := by
  rcases lt_trichotomy c c2 with h | h | h
  · exact absurd (hc2first c h) (not_lt.mpr (hcmin c2 hc2))
  · exact h
  · exact absurd (hcfirst c2 h) (not_lt.mpr (hc2min c hc))

/-- `on_node` returns `some n` exactly when `n` is the stored node at the
first index attaining the minimum squared distance and that minimum is
strictly below the squared threshold. -/
theorem on_node_eq_some_iff (g : Graph) (x y : ℚ) (node : Node) :
    on_node g x y = some node ↔
      ∃ c, c < g.nodes.length ∧ node = g.nodes.getD c default ∧
        dAt x y g.nodes c < g.dist_thresh * g.dist_thresh ∧
        (∀ k, k < g.nodes.length → dAt x y g.nodes c ≤ dAt x y g.nodes k) ∧
        (∀ k, k < c → dAt x y g.nodes c < dAt x y g.nodes k) := by
  constructor
  · intro h
    match hl : g.nodes, h with
    | [], h => simp [on_node, hl, scanMin, ltOq] at h
    | n :: t, h =>
      obtain ⟨c2, m2, hrec, hlen, hm2, hmin, hfirst⟩ := scanMin_char x y (n :: t) (by simp)
      rw [on_node, hl, hrec] at h
      by_cases ht : m2 < g.dist_thresh * g.dist_thresh
      · refine ⟨c2, hlen, ?_, by rw [← hm2]; exact ht, ?_, ?_⟩
        · rw [if_pos (by simpa [ltOq] using ht)] at h
          rw [List.get?_eq_getElem?, List.getElem?_eq_getElem (by simpa using hlen)] at h
          have := Option.some.inj h
          rw [← this, List.getD_eq_getElem?_getD,
            List.getElem?_eq_getElem (by simpa using hlen)]
          rfl
        · intro k hk; rw [← hm2]; exact hmin k hk
        · intro k hk; rw [← hm2]; exact hfirst k hk
      · rw [if_neg (by simpa [ltOq] using ht)] at h
        exact absurd h (by simp)
  · rintro ⟨c, hc, hnode, ht, hmin, hfirst⟩
    have hne : g.nodes ≠ [] := by
      intro hnil
      rw [hnil] at hc
      simp at hc
    obtain ⟨c2, m2, hrec, hlen, hm2, hmin2, hfirst2⟩ := scanMin_char x y g.nodes hne
    rw [hm2] at hmin2 hfirst2
    have hcc : c = c2 :=
      first_min_unique (D := fun k => dAt x y g.nodes k) hc hmin hfirst hlen hmin2 hfirst2
    rw [on_node, hrec]
    have htlt : m2 < g.dist_thresh * g.dist_thresh := by
      rw [hm2, ← hcc]; exact ht
    rw [if_pos (by simpa [ltOq] using htlt)]
    rw [List.get?_eq_getElem?, List.getElem?_eq_getElem (by simpa using hlen)]
    rw [hnode, hcc]
    rw [List.getD_eq_getElem?_getD, List.getElem?_eq_getElem (by simpa using hlen)]
    rfl

/-- `on_node` returns `none` exactly when no stored node is strictly within
the threshold (vacuously, on an empty store). -/
theorem on_node_eq_none_iff (g : Graph) (x y : ℚ) :
    on_node g x y = none ↔
      ∀ k, k < g.nodes.length →
        ¬(dAt x y g.nodes k < g.dist_thresh * g.dist_thresh) := by
  constructor
  · intro h k hk hlt
    obtain ⟨c2, m2, hrec, hlen, hm2, hmin, hfirst⟩ :=
      scanMin_char x y g.nodes (by intro hnil; rw [hnil] at hk; simp at hk)
    have : m2 < g.dist_thresh * g.dist_thresh :=
      lt_of_le_of_lt (by rw [hm2] at hmin ⊢; exact hmin k hk) hlt
    rw [on_node, hrec, if_pos (by simpa [ltOq] using this)] at h
    rw [List.get?_eq_getElem?, List.getElem?_eq_getElem (by simpa using hlen)] at h
    exact absurd h (by simp)
  · intro h
    match hl : g.nodes with
    | [] => simp [on_node, hl, scanMin, ltOq]
    | n :: t =>
      obtain ⟨c2, m2, hrec, hlen, hm2, hmin, hfirst⟩ := scanMin_char x y (n :: t) (by simp)
      rw [on_node, hl, hrec]
      rw [hl] at h
      rw [if_neg ?_]
      have := h c2 hlen
      rw [← hm2] at this
      simpa [ltOq] using this

/-! ### Arithmetic helpers -/

theorem sq_dist_nonneg (x0 y0 x1 y1 : ℚ) : 0 ≤ sq_dist x0 y0 x1 y1 := by
  unfold sq_dist
  have h1 := mul_self_nonneg (x1 - x0)
  have h2 := mul_self_nonneg (y1 - y0)
  linarith

theorem sq_dist_comm (x0 y0 x1 y1 : ℚ) : sq_dist x0 y0 x1 y1 = sq_dist x1 y1 x0 y0 := by
  unfold sq_dist
  ring

theorem sq_dist_self (x y : ℚ) : sq_dist x y x y = 0 := by
  unfold sq_dist
  ring

/-- Blending a stored point 70% toward the observation scales its squared
distance to the observation by 9/100. -/
theorem sq_dist_blend (x y a b : ℚ) :
    sq_dist x y (0.3 * a + 0.7 * x) (0.3 * b + 0.7 * y) = 9 / 100 * sq_dist x y a b := by
  unfold sq_dist
  ring

/-! ### Frame lemmas for the search engine (claim C10) -/

theorem relaxDir_nodes (id link : Int) (s : BfsState) :
    (relaxDir id link s).nodes = s.nodes := by
  simp only [relaxDir]
  split
  · split <;> rfl
  · rfl

theorem bfsLoop_nodes : ∀ (fuel : Nat) (s : BfsState), (bfsLoop fuel s).nodes = s.nodes := by
  intro fuel
  induction fuel with
  | zero => intro s; rfl
  | succ fuel ih =>
    intro s
    show (bfsLoop (fuel + 1) s).nodes = s.nodes
    unfold bfsLoop
    match hq : s.queue with
    | [] => rfl
    | id :: rest =>
      simp only
      split
      · rw [ih]
      · rw [ih]
        simp [relaxDir_nodes]

theorem path_to_poi_nodes (g : Graph) (id_from : Int) (filter : List Bool)
    (path : List Int) : (path_to_poi g id_from filter path).2 = g.nodes := by
  unfold path_to_poi
  split
  · rfl
  · simp only
    rw [bfsLoop_nodes]

/-! ### Claim theorems -/

/-- **C2.** For every store and query point, `on_node` (the spec's
`nearestWithin`) returns `some` waypoint exactly when that waypoint sits at
the first index attaining the minimum squared Euclidean distance to the query
point and that minimum is strictly below the squared dedup threshold
(ties broken by lowest index, hence lowest id); it returns `none` exactly
when no stored waypoint is strictly within the threshold; on an empty store
it always returns `none`. -/
theorem on_node_nearest_spec (g : Graph) (x y : ℚ) :
    (g.nodes = [] → on_node g x y = none) ∧
    (∀ node : Node, on_node g x y = some node ↔
      ∃ c, c < g.nodes.length ∧ node = g.nodes.getD c default ∧
        dAt x y g.nodes c < g.dist_thresh * g.dist_thresh ∧
        (∀ k, k < g.nodes.length → dAt x y g.nodes c ≤ dAt x y g.nodes k) ∧
        (∀ k, k < c → dAt x y g.nodes c < dAt x y g.nodes k)) ∧
    (on_node g x y = none ↔
      ∀ k, k < g.nodes.length →
        ¬(dAt x y g.nodes k < g.dist_thresh * g.dist_thresh)) := by
  refine ⟨?_, fun node => on_node_eq_some_iff g x y node, on_node_eq_none_iff g x y⟩
  intro hnil
  rw [on_node_eq_none_iff]
  intro k hk
  rw [hnil] at hk
  simp at hk

/-- Concrete nodes and graphs used by closed instantiations. -/
def nodeAt (i : Int) (x y : ℚ) : Node :=
  { id_this := i, x := x, y := y, id_north := NAV_GRAPH_UNKNOWN,
    id_east := NAV_GRAPH_UNKNOWN, id_south := NAV_GRAPH_UNKNOWN,
    id_west := NAV_GRAPH_UNKNOWN, object_here := false }

@[simp] theorem nodeAt_id_this (i : Int) (x y : ℚ) : (nodeAt i x y).id_this = i := rfl

@[simp] theorem nodeAt_x (i : Int) (x y : ℚ) : (nodeAt i x y).x = x := rfl

@[simp] theorem nodeAt_y (i : Int) (x y : ℚ) : (nodeAt i x y).y = y := rfl

@[simp] theorem nodeAt_id_north (i : Int) (x y : ℚ) : (nodeAt i x y).id_north = -1 := rfl

@[simp] theorem nodeAt_id_east (i : Int) (x y : ℚ) : (nodeAt i x y).id_east = -1 := rfl

@[simp] theorem nodeAt_id_south (i : Int) (x y : ℚ) : (nodeAt i x y).id_south = -1 := rfl

@[simp] theorem nodeAt_id_west (i : Int) (x y : ℚ) : (nodeAt i x y).id_west = -1 := rfl

@[simp] theorem nodeAt_object_here (i : Int) (x y : ℚ) :
    (nodeAt i x y).object_here = false := rfl

/-- A queue-empty loop state is a fixed point of the relaxation loop. -/
theorem bfsLoop_queue_nil (fuel : Nat) (s : BfsState) (h : s.queue = []) :
    bfsLoop fuel s = s := by
  cases fuel with
  | zero => rfl
  | succ fuel => rw [bfsLoop, h]

/-- A two-node store used to instantiate the `on_node` characterization. -/
def gPair : Graph :=
  { nodes := [nodeAt 0 0 0, nodeAt 1 5 5], dist_thresh := 1, update_positions := false }

/-- Closed instantiation of `on_node_nearest_spec`: the empty store yields
`none`, and on the concrete two-node store the node at distance 0 is found. -/
theorem on_node_nearest_spec_witness :
    on_node (initGraph 1 false) 0 0 = none ∧
    on_node gPair 0 0 = some (nodeAt 0 0 0) := by
  constructor
  · exact (on_node_nearest_spec (initGraph 1 false) 0 0).1 rfl
  · refine ((on_node_nearest_spec gPair 0 0).2.1 (nodeAt 0 0 0)).mpr
      ⟨0, by simp [gPair], rfl, ?_, ?_, by omega⟩
    · norm_num [dAt, gPair, sq_dist]
    · intro k hk
      simp only [gPair, List.length_cons, List.length_nil] at hk
      interval_cases k <;> norm_num [dAt, gPair, sq_dist]

/-- The single-waypoint, object-free store on which the no-match behaviour of
the search is evaluated. -/
def gNoObject : Graph :=
  { nodes := [nodeAt 0 0 0], dist_thresh := 1, update_positions := false }

/-- **C1.** The claim requires an empty sequence when no waypoint satisfies
the predicate with finite distance.  The code instead leaves the fallback
index 0 in place after the scan finds no match and reconstructs a path from
it: on a store with a single non-object waypoint, `PathToNearestObject` from
waypoint 0 returns the nonempty path `[0]`, not `[]`. -/
theorem path_to_next_object_no_match_fallback :
    (∀ n ∈ gNoObject.nodes, n.object_here = false) ∧
    (path_to_next_object gNoObject 0 []).1 = [0] ∧
    (path_to_next_object gNoObject 0 []).1 ≠ [] := by
  have hpath : (path_to_next_object gNoObject 0 []).1 = [0] := by
    have hloop : bfsLoop 10 ⟨[nodeAt 0 0 0], [0], [-1], [some 0], [false]⟩ =
        ⟨[nodeAt 0 0 0], [], [-1], [some 0], [true]⟩ := by
      rw [show (10 : Nat) = 9 + 1 by norm_num]
      rw [bfsLoop]
      norm_num [relaxDir, bfsLoop_queue_nil]
    rw [path_to_next_object, path_to_poi]
    rw [if_neg (by norm_num [gNoObject])]
    norm_num [gNoObject]
    rw [hloop]
    norm_num [scanPoi, scanPoiGo, buildPath, ltOO]
  refine ⟨by simp [gNoObject], hpath, by rw [hpath]; simp⟩

/-- The store on which the invalid-direction behaviour is evaluated. -/
def gDir : Graph :=
  { nodes := [nodeAt 0 0 0, nodeAt 1 5 5], dist_thresh := 1, update_positions := false }

/-- **C7.** The claim requires `connect` to fail with `InvalidDirection` for a
non-cardinal direction.  The code has no failure channel at all: for the
out-of-range direction 7 it logs `ROS_ERROR` and returns normally, leaving
the store unchanged (so the "no link is mutated" half does hold). -/
theorem set_connected_invalid_dir_silent :
    ¬ validDir 7 ∧ set_connected gDir 0 7 1 = gDir := by
  refine ⟨by decide, rfl⟩

/-- **C9.** `get_node` fails with `OutOfRange` exactly when the id is not a
currently valid index (negative or at least the waypoint count), and returns
the stored waypoint for a valid id. -/
theorem get_node_spec (g : Graph) (id : Int) :
    (get_node g id = .error .outOfRange ↔ (id < 0 ∨ (g.nodes.length : Int) ≤ id)) ∧
    (0 ≤ id → id < (g.nodes.length : Int) → get_node g id = .ok (getNodeD g id)) := by
  constructor
  · unfold get_node
    constructor
    · intro h
      by_contra hc
      rw [if_neg hc] at h
      exact absurd h (by simp)
    · intro h
      rw [if_pos h]
  · intro h1 h2
    unfold get_node
    rw [if_neg (by omega)]
    rfl

/-- Closed instantiation of `get_node_spec` on the two-node store: id 1 is
returned, id 2 and id -1 fail with `OutOfRange`. -/
theorem get_node_spec_witness :
    get_node gPair 1 = .ok (nodeAt 1 5 5) ∧
    get_node gPair 2 = .error .outOfRange ∧
    get_node gPair (-1) = .error .outOfRange := by
  refine ⟨?_, ?_, ?_⟩
  · exact (get_node_spec gPair 1).2 (by decide) (by decide)
  · exact ((get_node_spec gPair 2).1).mpr (by decide)
  · exact ((get_node_spec gPair (-1)).1).mpr (by decide)

/-- **C10.** The query operations never modify the waypoint store: the two
path queries return the node store unchanged (the store is threaded through
the relaxation loop, mirroring the by-reference `_nodes` argument of
`update_dijkstra`), and therefore every waypoint's id, coordinates, links and
object flag, and the waypoint count, are unchanged.  `on_node` and
`has_unkown_directions` contain no store write in the source and are embedded
as pure readers of the same store. -/
theorem queries_preserve_store (g : Graph) (id_from : Int) (path : List Int)
    (x y : ℚ) (id : Int) :
    (path_to_next_unknown g id_from path).2 = g.nodes ∧
    (path_to_next_object g id_from path).2 = g.nodes ∧
    (path_to_poi g id_from (g.nodes.map (fun n => n.object_here)) path).2 = g.nodes ∧
    on_node g x y = on_node { g with nodes := g.nodes } x y ∧
    has_unkown_directions g id = has_unkown_directions { g with nodes := g.nodes } id := by
  refine ⟨?_, ?_, ?_, rfl, rfl⟩
  · unfold path_to_next_unknown
    exact path_to_poi_nodes ..
  · unfold path_to_next_object
    exact path_to_poi_nodes ..
  · exact path_to_poi_nodes ..

/-- Unfolding of `place_node` in the merge branch. -/
theorem place_node_merge (x y : ℚ) (req : PlaceNodeRequest) (g : Graph) (node : Node)
    (h : on_node g x y = some node) :
    place_node x y req g =
      (getNodeD (update_position_at g node.id_this x y) node.id_this,
       update_position_at g node.id_this x y) := by
  simp only [place_node]
  rw [h]

/-- Unfolding of `place_node` in the creation branch. -/
theorem place_node_create (x y : ℚ) (req : PlaceNodeRequest) (g : Graph)
    (h : on_node g x y = none) :
    place_node x y req g =
      (let node : Node :=
        { init_node {} req.north_blocked req.east_blocked
            req.south_blocked req.west_blocked with
          x := x, y := y, id_this := Int.ofNat g.nodes.length }
       let g1 : Graph := { g with nodes := g.nodes ++ [node] }
       let g2 : Graph :=
        if g1.nodes.length > 1 then
          set_connected g1 req.id_previous req.direction node.id_this
        else g1
       (getNodeD g2 node.id_this, g2)) := by
  simp only [place_node]
  rw [h]

/-- Unfolding of `place_object` in the reuse branch. -/
theorem place_object_reuse (o : Int) (req : PlaceNodeRequest) (g : Graph) (nb : Node)
    (h : on_node g req.object_x req.object_y = some nb) (hobj : nb.object_here = true) :
    place_object o req g =
      (getNodeD
        (set_connected (update_position_at g nb.id_this req.object_x req.object_y)
          o req.object_direction nb.id_this) nb.id_this,
       set_connected (update_position_at g nb.id_this req.object_x req.object_y)
        o req.object_direction nb.id_this) := by
  simp only [place_object]
  rw [h]
  simp only [hobj]
  rfl

/-- Unfolding of `place_object` in the creation branch (no neighbor). -/
theorem place_object_create_none (o : Int) (req : PlaceNodeRequest) (g : Graph)
    (h : on_node g req.object_x req.object_y = none) :
    place_object o req g =
      (let node : Node :=
        { init_node {} true true true true with
          object_here := true, x := req.object_x, y := req.object_y,
          id_this := Int.ofNat g.nodes.length }
       let g1 : Graph := { g with nodes := g.nodes ++ [node] }
       let g2 := set_connected g1 o req.object_direction node.id_this
       (getNodeD g2 node.id_this, g2)) := by
  simp only [place_object]
  rw [h]

/-- Unfolding of `place_object` in the creation branch (non-object neighbor). -/
theorem place_object_create_nonobj (o : Int) (req : PlaceNodeRequest) (g : Graph) (nb : Node)
    (h : on_node g req.object_x req.object_y = some nb) (hobj : nb.object_here = false) :
    place_object o req g =
      (let node : Node :=
        { init_node {} true true true true with
          object_here := true, x := req.object_x, y := req.object_y,
          id_this := Int.ofNat g.nodes.length }
       let g1 : Graph := { g with nodes := g.nodes ++ [node] }
       let g2 := set_connected g1 o req.object_direction node.id_this
       (getNodeD g2 node.id_this, g2)) := by
  simp only [place_object]
  rw [h]
  simp only [hobj]
  rfl

theorem getNodeD_mm_snd (g : Graph) (a b : Int) (f1 f2 : Node → Node)
    (hb0 : 0 ≤ b) (hb : b.toNat < g.nodes.length) :
    getNodeD (modifyNode (modifyNode g a f1) b f2) b
      = f2 (getNodeD (modifyNode g a f1) b) :=
  getNodeD_modifyNode_self _ _ _ hb0 (by rw [modifyNode_length]; exact hb)

theorem getNodeD_mm_fst (g : Graph) (a b : Int) (f1 f2 : Node → Node)
    (ha0 : 0 ≤ a) (ha : a.toNat < g.nodes.length) (hb0 : 0 ≤ b) (hab : a ≠ b) :
    getNodeD (modifyNode (modifyNode g a f1) b f2) a = f1 (getNodeD g a) := by
  rw [getNodeD_modifyNode_ne _ b a f2 hb0 ha0 (Ne.symm hab),
    getNodeD_modifyNode_self _ _ _ ha0 ha]

theorem getNodeD_mm_same (g : Graph) (a : Int) (f1 f2 : Node → Node)
    (ha0 : 0 ≤ a) (ha : a.toNat < g.nodes.length) :
    getNodeD (modifyNode (modifyNode g a f1) a f2) a = f2 (f1 (getNodeD g a)) := by
  rw [getNodeD_modifyNode_self _ _ _ ha0 (by rw [modifyNode_length]; exact ha),
    getNodeD_modifyNode_self _ _ _ ha0 ha]

theorem set_connected_pair (g : Graph) (a dir b : Int)
    (ha0 : 0 ≤ a) (ha : a < (g.nodes.length : Int))
    (hb0 : 0 ≤ b) (hb : b < (g.nodes.length : Int))
    (hd : validDir dir) :
    linkInDir (getNodeD (set_connected g a dir b) a) dir = b ∧
    linkInDir (getNodeD (set_connected g a dir b) b) (oppositeDir dir) = a := by
  have ha2 : a.toNat < g.nodes.length := by omega
  have hb2 : b.toNat < g.nodes.length := by omega
  rcases hd with h | h | h | h <;> subst h
  · have hrw : set_connected g a North b =
        modifyNode (modifyNode g a (fun n => { n with id_north := b })) b
          (fun n => { n with id_south := a }) := by
      unfold set_connected
      rw [if_pos rfl]
    rw [hrw]
    by_cases hab : a = b
    · subst hab
      rw [getNodeD_mm_same g a _ _ ha0 ha2]
      refine ⟨?_, ?_⟩ <;> simp [linkInDir, oppositeDir, North, East, South, West]
    · refine ⟨?_, ?_⟩
      · rw [getNodeD_mm_fst g a b _ _ ha0 ha2 hb0 hab]
        simp [linkInDir, North]
      · rw [getNodeD_mm_snd g a b _ _ hb0 hb2]
        simp [linkInDir, oppositeDir, North, East, South, West]
  · have hrw : set_connected g a East b =
        modifyNode (modifyNode g a (fun n => { n with id_east := b })) b
          (fun n => { n with id_west := a }) := by
      unfold set_connected
      rw [if_neg (by decide), if_pos rfl]
    rw [hrw]
    by_cases hab : a = b
    · subst hab
      rw [getNodeD_mm_same g a _ _ ha0 ha2]
      refine ⟨?_, ?_⟩ <;> simp [linkInDir, oppositeDir, North, East, South, West]
    · refine ⟨?_, ?_⟩
      · rw [getNodeD_mm_fst g a b _ _ ha0 ha2 hb0 hab]
        simp [linkInDir, North, East]
      · rw [getNodeD_mm_snd g a b _ _ hb0 hb2]
        simp [linkInDir, oppositeDir, North, East, South, West]
  · have hrw : set_connected g a South b =
        modifyNode (modifyNode g a (fun n => { n with id_south := b })) b
          (fun n => { n with id_north := a }) := by
      unfold set_connected
      rw [if_neg (by decide), if_neg (by decide), if_pos rfl]
    rw [hrw]
    by_cases hab : a = b
    · subst hab
      rw [getNodeD_mm_same g a _ _ ha0 ha2]
      refine ⟨?_, ?_⟩ <;> simp [linkInDir, oppositeDir, North, East, South, West]
    · refine ⟨?_, ?_⟩
      · rw [getNodeD_mm_fst g a b _ _ ha0 ha2 hb0 hab]
        simp [linkInDir, North, East, South]
      · rw [getNodeD_mm_snd g a b _ _ hb0 hb2]
        simp [linkInDir, oppositeDir, North, East, South, West]
  · have hrw : set_connected g a West b =
        modifyNode (modifyNode g a (fun n => { n with id_west := b })) b
          (fun n => { n with id_east := a }) := by
      unfold set_connected
      rw [if_neg (by decide), if_neg (by decide), if_neg (by decide), if_pos rfl]
    rw [hrw]
    by_cases hab : a = b
    · subst hab
      rw [getNodeD_mm_same g a _ _ ha0 ha2]
      refine ⟨?_, ?_⟩ <;> simp [linkInDir, oppositeDir, North, East, South, West]
    · refine ⟨?_, ?_⟩
      · rw [getNodeD_mm_fst g a b _ _ ha0 ha2 hb0 hab]
        simp [linkInDir, North, East, South, West]
      · rw [getNodeD_mm_snd g a b _ _ hb0 hb2]
        simp [linkInDir, oppositeDir, North, East, South, West]

/-- **C3 (amended).** Reciprocity holds for the connected pair immediately
after each `set_connected(a, dir, b)` with valid ids and a cardinal
direction: `a`'s link in `dir` is `b` and `b`'s link in the opposite
direction is `a`.  As a global invariant of all reachable states the claimed
iff fails (see the counterexample): a later placement that links the same
object waypoint from a second origin, or re-links `a` in the same direction,
overwrites one side of an earlier pair. -/
theorem set_connected_reciprocal_pairwise (g : Graph) (a dir b : Int)
    (ha0 : 0 ≤ a) (ha : a < (g.nodes.length : Int))
    (hb0 : 0 ≤ b) (hb : b < (g.nodes.length : Int))
    (hd : validDir dir) :
    linkInDir (getNodeD (set_connected g a dir b) a) dir = b ∧
    linkInDir (getNodeD (set_connected g a dir b) b) (oppositeDir dir) = a :=
  set_connected_pair g a dir b ha0 ha hb0 hb hd

/-- Closed instantiation of the pairwise reciprocity theorem: connecting
waypoint 0 to waypoint 1 northward on the two-node store. -/
theorem set_connected_reciprocal_pairwise_witness :
    linkInDir (getNodeD (set_connected gPair 0 0 1) 0) 0 = 1 ∧
    linkInDir (getNodeD (set_connected gPair 0 0 1) 1) (oppositeDir 0) = 0 :=
  set_connected_reciprocal_pairwise gPair 0 0 1 (by decide) (by decide)
    (by decide) (by decide) (by decide)

/-! ### A reachable state violating global link reciprocity (claim C3)

The run: place waypoint 0 at (0,0); place waypoint 1 at (10,0) linked east of
0; report an object at (0,5) from origin 0 (creates object waypoint 2,
0.north = 2, 2.south = 0); report the same object from origin 1 (reuses
waypoint 2 and rewires 2.south to 1).  Afterwards 0.north = 2 but
2.south = 1 ≠ 0. -/

/-- First waypoint of the counterexample runs. -/
def cn0 : Node :=
  { id_this := 0, x := 0, y := 0, id_north := -1, id_east := -1,
    id_south := -1, id_west := -1, object_here := false }

/-- State after placing the first waypoint. -/
def cg1 : Graph := { nodes := [cn0], dist_thresh := 1, update_positions := false }

theorem on_cg0_none : on_node (initGraph 1 false) 0 0 = none := by
  rw [on_node_eq_none_iff]
  intro k hk
  simp [initGraph] at hk

theorem step_cg1 : applyOp (initGraph 1 false) (.pnode 0 0 {}) = cg1 := by
  simp only [applyOp, place_node]
  rw [on_cg0_none]
  rfl

theorem on_cg1_far : on_node cg1 10 0 = none := by
  rw [on_node_eq_none_iff]
  intro k hk
  simp only [cg1, List.length_cons, List.length_nil] at hk
  interval_cases k <;> norm_num [dAt, sq_dist, cg1, cn0]

def cn0b : Node :=
  { id_this := 0, x := 0, y := 0, id_north := -1, id_east := 1,
    id_south := -1, id_west := -1, object_here := false }

def cn1 : Node :=
  { id_this := 1, x := 10, y := 0, id_north := -1, id_east := -1,
    id_south := -1, id_west := 0, object_here := false }

/-- State after placing the second waypoint east of the first. -/
def cg2 : Graph := { nodes := [cn0b, cn1], dist_thresh := 1, update_positions := false }

theorem step_cg2 : applyOp cg1 (.pnode 10 0 { id_previous := 0, direction := 1 }) = cg2 := by
  simp only [applyOp, place_node]
  rw [on_cg1_far]
  rfl

theorem on_cg2_obj : on_node cg2 0 5 = none := by
  rw [on_node_eq_none_iff]
  intro k hk
  simp only [cg2, List.length_cons, List.length_nil] at hk
  interval_cases k <;> norm_num [dAt, sq_dist, cg2, cn0b, cn1]

def cn0c : Node :=
  { id_this := 0, x := 0, y := 0, id_north := 2, id_east := 1,
    id_south := -1, id_west := -1, object_here := false }

def cn2 : Node :=
  { id_this := 2, x := 0, y := 5, id_north := -2, id_east := -2,
    id_south := 0, id_west := -2, object_here := true }

/-- State after the first object report from origin 0. -/
def cg3 : Graph := { nodes := [cn0c, cn1, cn2], dist_thresh := 1, update_positions := false }

theorem step_cg3 :
    applyOp cg2 (.pobject 0 { object_x := 0, object_y := 5, object_direction := 0 }) = cg3 := by
  simp only [applyOp, place_object]
  rw [on_cg2_obj]
  rfl

theorem on_cg3_obj : on_node cg3 0 5 = some cn2 := by
  refine (on_node_eq_some_iff cg3 0 5 cn2).mpr ⟨2, by simp [cg3], rfl, ?_, ?_, ?_⟩
  · norm_num [dAt, sq_dist, cg3, cn2]
  · intro k hk
    simp only [cg3, List.length_cons, List.length_nil] at hk
    interval_cases k <;> norm_num [dAt, sq_dist, cg3, cn0c, cn1, cn2]
  · intro k hk
    interval_cases k <;> norm_num [dAt, sq_dist, cg3, cn0c, cn1, cn2]

def cn1b : Node :=
  { id_this := 1, x := 10, y := 0, id_north := 2, id_east := -1,
    id_south := -1, id_west := 0, object_here := false }

def cn2b : Node :=
  { id_this := 2, x := 0, y := 5, id_north := -2, id_east := -2,
    id_south := 1, id_west := -2, object_here := true }

/-- State after the second object report, from origin 1. -/
def cg4 : Graph := { nodes := [cn0c, cn1b, cn2b], dist_thresh := 1, update_positions := false }

theorem step_cg4 :
    applyOp cg3 (.pobject 1 { object_x := 0, object_y := 5, object_direction := 0 }) = cg4 := by
  simp only [applyOp, place_object]
  rw [on_cg3_obj]
  rfl

/-- The four-call run described above. -/
def opsRecip : List GOp :=
  [ .pnode 0 0 {},
    .pnode 10 0 { id_previous := 0, direction := 1 },
    .pobject 0 { object_x := 0, object_y := 5, object_direction := 0 },
    .pobject 1 { object_x := 0, object_y := 5, object_direction := 0 } ]

theorem opsRecip_final : applyOps (initGraph 1 false) opsRecip = cg4 := by
  simp only [opsRecip, applyOps, List.foldl]
  rw [step_cg1, step_cg2, step_cg3, step_cg4]

theorem opsRecip_valid : seqValid (initGraph 1 false) opsRecip = true := by
  simp only [opsRecip, seqValid]
  rw [step_cg1, step_cg2, step_cg3]
  simp only [opValid]
  rw [on_cg0_none, on_cg1_far, on_cg2_obj, on_cg3_obj]
  rfl

/-- **C3 (counterexample).** A state reachable by a valid sequence of
`place_node`/`place_object` calls in which waypoint 0's North link points to
waypoint 2 but waypoint 2's South link points to waypoint 1, not back to 0:
global link reciprocity is not an invariant of the reachable states. -/
theorem reciprocity_counterexample :
    seqValid (initGraph 1 false) opsRecip = true ∧
    applyOps (initGraph 1 false) opsRecip = cg4 ∧
    IdsDense cg4 ∧
    (getNodeD cg4 0).id_this = 0 ∧ (getNodeD cg4 2).id_this = 2 ∧
    linkInDir (getNodeD cg4 0) North = 2 ∧
    linkInDir (getNodeD cg4 2) (oppositeDir North) ≠ 0 := by
  refine ⟨opsRecip_valid, opsRecip_final, ?_, rfl, rfl, rfl, by decide⟩
  intro i
  fin_cases i <;> rfl

/-! ### Two reports farther apart than the threshold can merge into the same
waypoint (claim C4, second half) -/

theorem on_cg1_nearby : on_node cg1 (9/10) 0 = some cn0 := by
  refine (on_node_eq_some_iff cg1 (9/10) 0 cn0).mpr ⟨0, by simp [cg1], rfl, ?_, ?_, by omega⟩
  · norm_num [dAt, sq_dist, cg1, cn0]
  · intro k hk
    simp only [cg1, List.length_cons, List.length_nil] at hk
    interval_cases k <;> norm_num [dAt, sq_dist, cg1, cn0]

theorem on_cg1_nearby2 : on_node cg1 (-(9/10)) 0 = some cn0 := by
  refine (on_node_eq_some_iff cg1 (-(9/10)) 0 cn0).mpr ⟨0, by simp [cg1], rfl, ?_, ?_, by omega⟩
  · norm_num [dAt, sq_dist, cg1, cn0]
  · intro k hk
    simp only [cg1, List.length_cons, List.length_nil] at hk
    interval_cases k <;> norm_num [dAt, sq_dist, cg1, cn0]

theorem place_nearby_merge : place_node (9/10) 0 {} cg1 = (cn0, cg1) := by
  rw [place_node_merge _ _ _ _ _ on_cg1_nearby, update_position_at_off cg1 _ _ _ rfl]
  rfl

theorem place_nearby_merge2 : place_node (-(9/10)) 0 {} cg1 = (cn0, cg1) := by
  rw [place_node_merge _ _ _ _ _ on_cg1_nearby2, update_position_at_off cg1 _ _ _ rfl]
  rfl

/-- **C4 (counterexample).** On the reachable one-waypoint state `cg1`
(waypoint 0 at (0,0), threshold 1), the reports (9/10, 0) and (-9/10, 0) are
farther apart than the dedup threshold (squared distance 81/25 > 1) yet both
calls merge into waypoint 0 and return the same id: two points farther apart
than the threshold need not yield two distinct ids. -/
theorem far_points_same_id_counterexample :
    applyOp (initGraph 1 false) (.pnode 0 0 {}) = cg1 ∧
    cg1.dist_thresh * cg1.dist_thresh < sq_dist (9/10) 0 (-(9/10)) 0 ∧
    (place_node (9/10) 0 {} cg1).1.id_this =
      (place_node (-(9/10)) 0 {} (place_node (9/10) 0 {} cg1).2).1.id_this := by
  refine ⟨step_cg1, by norm_num [cg1, sq_dist], ?_⟩
  rw [place_nearby_merge]
  rw [place_nearby_merge2]

theorem toNat_ofNat (k : Nat) : (Int.ofNat k).toNat = k := rfl

theorem getNodeD_eq_get (g : Graph) (j : Nat) (hj : j < g.nodes.length) :
    getNodeD g (Int.ofNat j) = g.nodes.get ⟨j, hj⟩ := by
  unfold getNodeD
  rw [toNat_ofNat, List.getD_eq_getElem?_getD, List.getElem?_eq_getElem hj]
  rfl

theorem idsDense_iff (g : Graph) : IdsDense g ↔
    ∀ j, (hj : j < g.nodes.length) → (getNodeD g (Int.ofNat j)).id_this = Int.ofNat j := by
  constructor
  · intro h j hj
    rw [getNodeD_eq_get g j hj]
    exact h ⟨j, hj⟩
  · intro h i
    have := h i.val i.isLt
    rw [getNodeD_eq_get g i.val i.isLt] at this
    exact this

theorem idsDense_of_preserved (g1 g2 : Graph)
    (hlen : g2.nodes.length = g1.nodes.length)
    (hid : ∀ j : Int, (getNodeD g2 j).id_this = (getNodeD g1 j).id_this)
    (h : IdsDense g1) : IdsDense g2 := by
  rw [idsDense_iff] at h ⊢
  intro j hj
  rw [hid (Int.ofNat j)]
  exact h j (by omega)

theorem idsDense_append (g : Graph) (node : Node)
    (hid : node.id_this = Int.ofNat g.nodes.length) (h : IdsDense g) :
    IdsDense { g with nodes := g.nodes ++ [node] } := by
  rw [idsDense_iff] at h ⊢
  intro j hj
  simp only [List.length_append, List.length_cons, List.length_nil] at hj
  unfold getNodeD at h ⊢
  simp only [toNat_ofNat] at h ⊢
  by_cases hlt : j < g.nodes.length
  · rw [getD_append_left _ _ _ _ hlt]
    exact h j hlt
  · have hj2 : j = g.nodes.length := by omega
    rw [hj2, getD_append_length]
    exact hid

theorem idsDense_place_node (x y : ℚ) (req : PlaceNodeRequest) (g : Graph)
    (h : IdsDense g) : IdsDense (place_node x y req g).2 := by
  cases hon : on_node g x y with
  | some node =>
    rw [place_node_merge _ _ _ _ _ hon]
    exact idsDense_of_preserved g _ (update_position_at_length ..)
      (fun j => update_position_at_id_this ..) h
  | none =>
    rw [place_node_create _ _ _ _ hon]
    simp only
    have happ : IdsDense { g with nodes := g.nodes ++
        [{ init_node {} req.north_blocked req.east_blocked
             req.south_blocked req.west_blocked with
           x := x, y := y, id_this := Int.ofNat g.nodes.length }] } :=
      idsDense_append g _ rfl h
    split
    · exact idsDense_of_preserved _ _ (set_connected_length ..)
        (fun j => set_connected_id_this ..) happ
    · exact happ

theorem idsDense_place_object (o : Int) (req : PlaceNodeRequest) (g : Graph)
    (h : IdsDense g) : IdsDense (place_object o req g).2 := by
  cases hon : on_node g req.object_x req.object_y with
  | some nb =>
    cases hobj : nb.object_here with
    | true =>
      rw [place_object_reuse _ _ _ _ hon hobj]
      have h1 : IdsDense (update_position_at g nb.id_this req.object_x req.object_y) :=
        idsDense_of_preserved g
          (update_position_at g nb.id_this req.object_x req.object_y)
          (update_position_at_length g nb.id_this req.object_x req.object_y)
          (fun j => update_position_at_id_this g nb.id_this req.object_x req.object_y j) h
      exact idsDense_of_preserved
        (update_position_at g nb.id_this req.object_x req.object_y)
        (set_connected (update_position_at g nb.id_this req.object_x req.object_y)
          o req.object_direction nb.id_this)
        (set_connected_length ..) (fun j => set_connected_id_this ..) h1
    | false =>
      rw [place_object_create_nonobj _ _ _ _ hon hobj]
      simp only
      exact idsDense_of_preserved _ _ (set_connected_length ..)
        (fun j => set_connected_id_this ..) (idsDense_append g _ rfl h)
  | none =>
    rw [place_object_create_none _ _ _ hon]
    simp only
    exact idsDense_of_preserved _ _ (set_connected_length ..)
      (fun j => set_connected_id_this ..) (idsDense_append g _ rfl h)

theorem idsDense_applyOp (g : Graph) (op : GOp) (h : IdsDense g) :
    IdsDense (applyOp g op) := by
  cases op with
  | pnode x y req => exact idsDense_place_node x y req g h
  | pobject o req => exact idsDense_place_object o req g h

theorem idsDense_applyOps (g : Graph) (ops : List GOp) (h : IdsDense g) :
    IdsDense (applyOps g ops) := by
  induction ops generalizing g with
  | nil => exact h
  | cons op rest ih => exact ih (applyOp g op) (idsDense_applyOp g op h)

/-- **C8.** Waypoint ids are dense and equal to storage position in every
state reachable from the empty map by a valid sequence of `place_node` and
`place_object` calls: the waypoint stored at index `i` has id `i` (so ids are
exactly 0..n-1 in creation order, with no gaps and no reuse). -/
theorem waypoint_ids_dense (thresh : ℚ) (smooth : Bool) (ops : List GOp)
    (hv : seqValid (initGraph thresh smooth) ops = true) :
    ∀ i : Fin (applyOps (initGraph thresh smooth) ops).nodes.length,
      ((applyOps (initGraph thresh smooth) ops).nodes.get i).id_this = Int.ofNat i.val :=
  idsDense_applyOps (initGraph thresh smooth) ops (fun i => absurd i.isLt (by simp [initGraph]))

/-- Closed instantiation of the dense-id invariant after one placement. -/
theorem waypoint_ids_dense_witness :
    seqValid (initGraph 1 false) [GOp.pnode 0 0 {}] = true ∧
    ∀ i : Fin (applyOps (initGraph 1 false) [GOp.pnode 0 0 {}]).nodes.length,
      ((applyOps (initGraph 1 false) [GOp.pnode 0 0 {}]).nodes.get i).id_this = Int.ofNat i.val := by
  have hv : seqValid (initGraph 1 false) [GOp.pnode 0 0 {}] = true := by
    simp only [seqValid, opValid]
    rw [on_cg0_none]
    rfl
  exact ⟨hv, waypoint_ids_dense 1 false [GOp.pnode 0 0 {}] hv⟩
theorem int_ofNat_eq (c : Nat) : Int.ofNat c = (c : Int) := rfl

/-- A waypoint returned by `on_node` on an id-dense store has an in-range id
and is the stored waypoint at that id. -/
theorem on_node_some_facts (g : Graph) (x y : ℚ) (nb : Node)
    (hdense : IdsDense g) (h : on_node g x y = some nb) :
    0 ≤ nb.id_this ∧ nb.id_this < (g.nodes.length : Int) ∧ getNodeD g nb.id_this = nb := by
  obtain ⟨c, hc, hnb, _⟩ := (on_node_eq_some_iff g x y nb).mp h
  have hid : nb.id_this = Int.ofNat c := by
    rw [hnb]
    have := (idsDense_iff g).mp hdense c hc
    unfold getNodeD at this
    rw [toNat_ofNat] at this
    exact this
  rw [int_ofNat_eq] at hid
  refine ⟨by omega, by omega, ?_⟩
  rw [hid, ← int_ofNat_eq]
  unfold getNodeD
  rw [toNat_ofNat]
  exact hnb.symm

/-- `set_connected(a, dir, b)` only writes the `dir` link of `a` and the
opposite link of `b`: for `a ≠ b`, all other links of `b` are unchanged. -/
theorem set_connected_other_links (g : Graph) (a dir b : Int)
    (ha0 : 0 ≤ a) (hb0 : 0 ≤ b) (hb : b.toNat < g.nodes.length) (hab : a ≠ b)
    (hd : validDir dir) :
    ∀ d, validDir d → d ≠ oppositeDir dir →
      linkInDir (getNodeD (set_connected g a dir b) b) d = linkInDir (getNodeD g b) d := by
  intro d hvd hne
  rcases hd with h | h | h | h <;> subst h
  · rw [show set_connected g a North b =
        modifyNode (modifyNode g a (fun n => { n with id_north := b })) b
          (fun n => { n with id_south := a }) by unfold set_connected; rw [if_pos rfl]]
    rw [getNodeD_mm_snd g a b _ _ hb0 hb,
      getNodeD_modifyNode_ne g a b _ ha0 hb0 hab]
    rcases hvd with h2 | h2 | h2 | h2 <;> subst h2
    · simp [linkInDir, North]
    · simp [linkInDir, North, East]
    · simp [oppositeDir, North, East, South, West] at hne
    · simp [linkInDir, North, East, South, West]
  · rw [show set_connected g a East b =
        modifyNode (modifyNode g a (fun n => { n with id_east := b })) b
          (fun n => { n with id_west := a }) by
        unfold set_connected; rw [if_neg (by decide), if_pos rfl]]
    rw [getNodeD_mm_snd g a b _ _ hb0 hb,
      getNodeD_modifyNode_ne g a b _ ha0 hb0 hab]
    rcases hvd with h2 | h2 | h2 | h2 <;> subst h2
    · simp [linkInDir, North]
    · simp [linkInDir, North, East]
    · simp [linkInDir, North, East, South]
    · simp [oppositeDir, North, East, South, West] at hne
  · rw [show set_connected g a South b =
        modifyNode (modifyNode g a (fun n => { n with id_south := b })) b
          (fun n => { n with id_north := a }) by
        unfold set_connected; rw [if_neg (by decide), if_neg (by decide), if_pos rfl]]
    rw [getNodeD_mm_snd g a b _ _ hb0 hb,
      getNodeD_modifyNode_ne g a b _ ha0 hb0 hab]
    rcases hvd with h2 | h2 | h2 | h2 <;> subst h2
    · simp [oppositeDir, North, East, South, West] at hne
    · simp [linkInDir, North, East]
    · simp [linkInDir, North, East, South]
    · simp [linkInDir, North, East, South, West]
  · rw [show set_connected g a West b =
        modifyNode (modifyNode g a (fun n => { n with id_west := b })) b
          (fun n => { n with id_east := a }) by
        unfold set_connected
        rw [if_neg (by decide), if_neg (by decide), if_neg (by decide), if_pos rfl]]
    rw [getNodeD_mm_snd g a b _ _ hb0 hb,
      getNodeD_modifyNode_ne g a b _ ha0 hb0 hab]
    rcases hvd with h2 | h2 | h2 | h2 <;> subst h2
    · simp [linkInDir, North]
    · simp [oppositeDir, North, East, South, West] at hne
    · simp [linkInDir, North, East, South]
    · simp [linkInDir, North, East, South, West]

/-- **C5.** For every `place_object` call with a valid origin and cardinal
direction on an id-dense store: if no waypoint lies within the dedup
threshold of the reported object position, or the nearest one is not an
object waypoint, a new waypoint is created (id = old count, count grows by
one) with `hasObject = true` and every link other than the one rewired by the
subsequent connect still `Blocked`; if the nearest waypoint is an object
waypoint it is reused (same id, no growth); in all cases the origin waypoint
ends connected to the resulting id in the requested direction, with the
reciprocal link set back. -/
theorem place_object_spec (g : Graph) (o : Int) (req : PlaceNodeRequest)
    (ho0 : 0 ≤ o) (ho : o < (g.nodes.length : Int))
    (hd : validDir req.object_direction) (hdense : IdsDense g) :
    (∀ nb, on_node g req.object_x req.object_y = some nb → nb.object_here = true →
      (place_object o req g).1.id_this = nb.id_this ∧
      (place_object o req g).2.nodes.length = g.nodes.length) ∧
    ((on_node g req.object_x req.object_y = none ∨
      (∃ nb, on_node g req.object_x req.object_y = some nb ∧ nb.object_here = false)) →
      (place_object o req g).1.id_this = Int.ofNat g.nodes.length ∧
      (place_object o req g).2.nodes.length = g.nodes.length + 1 ∧
      (getNodeD (place_object o req g).2 (Int.ofNat g.nodes.length)).object_here = true ∧
      (∀ d, validDir d → d ≠ oppositeDir req.object_direction →
        linkInDir (getNodeD (place_object o req g).2 (Int.ofNat g.nodes.length)) d
          = NAV_GRAPH_BLOCKED)) ∧
    (linkInDir (getNodeD (place_object o req g).2 o) req.object_direction
        = (place_object o req g).1.id_this ∧
     linkInDir (getNodeD (place_object o req g).2 (place_object o req g).1.id_this)
        (oppositeDir req.object_direction) = o) := by
  cases hon : on_node g req.object_x req.object_y with
  | some nb =>
    cases hobj : nb.object_here with
    | true =>
      obtain ⟨hnb0, hnb1, hnbg⟩ := on_node_some_facts g _ _ nb hdense hon
      rw [place_object_reuse o req g nb hon hobj]
      simp only
      have hid : (getNodeD
          (set_connected (update_position_at g nb.id_this req.object_x req.object_y)
            o req.object_direction nb.id_this) nb.id_this).id_this = nb.id_this := by
        rw [set_connected_id_this, update_position_at_id_this, hnbg]
      rw [hid]
      have hpair := set_connected_pair
        (update_position_at g nb.id_this req.object_x req.object_y)
        o req.object_direction nb.id_this ho0
        (by rw [update_position_at_length]; exact ho) hnb0
        (by rw [update_position_at_length]; exact hnb1) hd
      refine ⟨?_, ?_, hpair.1, hpair.2⟩
      · intro nb' hon' _
        have hnb' : nb' = nb := (Option.some.inj hon').symm
        subst hnb'
        exact ⟨rfl, by rw [set_connected_length, update_position_at_length]⟩
      · intro hcre
        rcases hcre with hnone | ⟨nb', hon', hobj'⟩
        · exact absurd hnone (by simp)
        · rw [(Option.some.inj hon').symm] at hobj'
          rw [hobj] at hobj'
          exact absurd hobj' (by simp)
    | false =>
      rw [place_object_create_nonobj o req g nb hon hobj]
      simp only
      have hobound : o < (({ g with nodes := g.nodes ++
          [{ init_node {} true true true true with
            object_here := true, x := req.object_x, y := req.object_y,
            id_this := Int.ofNat g.nodes.length }] } : Graph).nodes.length : Int) := by
        simp only [List.length_append, List.length_cons, List.length_nil]
        omega
      have hone : o ≠ Int.ofNat g.nodes.length := by
        rw [int_ofNat_eq]
        omega
      have hG1 : getNodeD ({ g with nodes := g.nodes ++
          [{ init_node {} true true true true with
            object_here := true, x := req.object_x, y := req.object_y,
            id_this := Int.ofNat g.nodes.length }] } : Graph) (Int.ofNat g.nodes.length) =
          { init_node {} true true true true with
            object_here := true, x := req.object_x, y := req.object_y,
            id_this := Int.ofNat g.nodes.length } := by
        unfold getNodeD
        rw [toNat_ofNat]
        exact getD_append_length ..
      have hid : (getNodeD (set_connected ({ g with nodes := g.nodes ++
          [{ init_node {} true true true true with
            object_here := true, x := req.object_x, y := req.object_y,
            id_this := Int.ofNat g.nodes.length }] } : Graph)
            o req.object_direction (Int.ofNat g.nodes.length))
          (Int.ofNat g.nodes.length)).id_this = Int.ofNat g.nodes.length := by
        rw [set_connected_id_this, hG1]
      rw [hid]
      have hpair := set_connected_pair _ o req.object_direction (Int.ofNat g.nodes.length)
        ho0 hobound (by rw [int_ofNat_eq]; omega)
        (by rw [int_ofNat_eq]
            simp only [List.length_append, List.length_cons, List.length_nil]
            omega) hd
      refine ⟨?_, ?_, hpair.1, hpair.2⟩
      · intro nb' hon' hobj'
        rw [(Option.some.inj hon').symm] at hobj'
        rw [hobj] at hobj'
        exact absurd hobj' (by simp)
      · intro _
        refine ⟨rfl, ?_, ?_, ?_⟩
        · rw [set_connected_length]
          simp
        · rw [set_connected_object_here, hG1]
        · intro d hvd hne
          rw [set_connected_other_links _ o req.object_direction (Int.ofNat g.nodes.length)
              ho0 (by rw [int_ofNat_eq]; omega)
              (by rw [toNat_ofNat]
                  simp only [List.length_append, List.length_cons, List.length_nil]
                  omega)
              hone hd d hvd hne, hG1]
          rcases hvd with h2 | h2 | h2 | h2 <;> subst h2 <;>
            simp [linkInDir, init_node, North, East, South, West]
  | none =>
    rw [place_object_create_none o req g hon]
    simp only
    have hobound : o < (({ g with nodes := g.nodes ++
        [{ init_node {} true true true true with
          object_here := true, x := req.object_x, y := req.object_y,
          id_this := Int.ofNat g.nodes.length }] } : Graph).nodes.length : Int) := by
      simp only [List.length_append, List.length_cons, List.length_nil]
      omega
    have hone : o ≠ Int.ofNat g.nodes.length := by
      rw [int_ofNat_eq]
      omega
    have hG1 : getNodeD ({ g with nodes := g.nodes ++
        [{ init_node {} true true true true with
          object_here := true, x := req.object_x, y := req.object_y,
          id_this := Int.ofNat g.nodes.length }] } : Graph) (Int.ofNat g.nodes.length) =
        { init_node {} true true true true with
          object_here := true, x := req.object_x, y := req.object_y,
          id_this := Int.ofNat g.nodes.length } := by
      unfold getNodeD
      rw [toNat_ofNat]
      exact getD_append_length ..
    have hid : (getNodeD (set_connected ({ g with nodes := g.nodes ++
        [{ init_node {} true true true true with
          object_here := true, x := req.object_x, y := req.object_y,
          id_this := Int.ofNat g.nodes.length }] } : Graph)
          o req.object_direction (Int.ofNat g.nodes.length))
        (Int.ofNat g.nodes.length)).id_this = Int.ofNat g.nodes.length := by
      rw [set_connected_id_this, hG1]
    rw [hid]
    have hpair := set_connected_pair _ o req.object_direction (Int.ofNat g.nodes.length)
      ho0 hobound (by rw [int_ofNat_eq]; omega)
      (by rw [int_ofNat_eq]
          simp only [List.length_append, List.length_cons, List.length_nil]
          omega) hd
    refine ⟨?_, ?_, hpair.1, hpair.2⟩
    · intro nb' hon' _
      exact absurd hon' (by simp)
    · intro _
      refine ⟨rfl, ?_, ?_, ?_⟩
      · rw [set_connected_length]
        simp
      · rw [set_connected_object_here, hG1]
      · intro d hvd hne
        rw [set_connected_other_links _ o req.object_direction (Int.ofNat g.nodes.length)
            ho0 (by rw [int_ofNat_eq]; omega)
            (by rw [toNat_ofNat]
                simp only [List.length_append, List.length_cons, List.length_nil]
                omega)
            hone hd d hvd hne, hG1]
        rcases hvd with h2 | h2 | h2 | h2 <;> subst h2 <;>
          simp [linkInDir, init_node, North, East, South, West]

/-- Closed instantiation of `place_object_spec`: an object reported at (0,5)
from origin 0 on the two-waypoint store creates object waypoint 2 and links
0 north to it. -/
theorem place_object_spec_witness :
    (place_object 0 { object_x := 0, object_y := 5, object_direction := 0 } cg2).1.id_this = 2 ∧
    (place_object 0 { object_x := 0, object_y := 5, object_direction := 0 } cg2).2.nodes.length = 3 ∧
    linkInDir (getNodeD
      (place_object 0 { object_x := 0, object_y := 5, object_direction := 0 } cg2).2 0) 0 = 2 := by
  have h := place_object_spec cg2 0 { object_x := 0, object_y := 5, object_direction := 0 }
    (by decide) (by decide) (by decide) (by intro i; fin_cases i <;> rfl)
  have h2 := h.2.1 (Or.inl on_cg2_obj)
  exact ⟨h2.1, h2.2.1, h.2.2.1.trans h2.1⟩
theorem coordsAt_eq (g : Graph) (i : Nat) :
    coordsAt g i = ((getNodeD g (Int.ofNat i)).x, (getNodeD g (Int.ofNat i)).y) := by
  unfold coordsAt getNodeD
  rw [toNat_ofNat]

theorem place_node_flag (x y : ℚ) (req : PlaceNodeRequest) (g : Graph) :
    (place_node x y req g).2.update_positions = g.update_positions := by
  cases hon : on_node g x y with
  | some nb =>
    rw [place_node_merge _ _ _ _ _ hon]
    exact update_position_at_update_positions ..
  | none =>
    rw [place_node_create _ _ _ _ hon]
    simp only
    split
    · rw [set_connected_update_positions]
    · rfl

theorem place_object_flag (o : Int) (req : PlaceNodeRequest) (g : Graph) :
    (place_object o req g).2.update_positions = g.update_positions := by
  cases hon : on_node g req.object_x req.object_y with
  | some nb =>
    cases hobj : nb.object_here with
    | true =>
      rw [place_object_reuse _ _ _ _ hon hobj]
      rw [set_connected_update_positions, update_position_at_update_positions]
    | false =>
      rw [place_object_create_nonobj _ _ _ _ hon hobj]
      simp only
      rw [set_connected_update_positions]
  | none =>
    rw [place_object_create_none _ _ _ hon]
    simp only
    rw [set_connected_update_positions]

theorem applyOp_flag (g : Graph) (op : GOp) :
    (applyOp g op).update_positions = g.update_positions := by
  cases op with
  | pnode x y req => exact place_node_flag x y req g
  | pobject o req => exact place_object_flag o req g

theorem applyOp_len_mono (g : Graph) (op : GOp) :
    g.nodes.length ≤ (applyOp g op).nodes.length := by
  cases op with
  | pnode x y req =>
    show g.nodes.length ≤ (place_node x y req g).2.nodes.length
    cases hon : on_node g x y with
    | some nb =>
      rw [place_node_merge _ _ _ _ _ hon, update_position_at_length]
    | none =>
      rw [place_node_create _ _ _ _ hon]
      simp only
      split
      · rw [set_connected_length]
        simp
      · simp
  | pobject o req =>
    show g.nodes.length ≤ (place_object o req g).2.nodes.length
    cases hon : on_node g req.object_x req.object_y with
    | some nb =>
      cases hobj : nb.object_here with
      | true =>
        rw [place_object_reuse _ _ _ _ hon hobj, set_connected_length,
          update_position_at_length]
      | false =>
        rw [place_object_create_nonobj _ _ _ _ hon hobj]
        simp only
        rw [set_connected_length]
        simp
    | none =>
      rw [place_object_create_none _ _ _ hon]
      simp only
      rw [set_connected_length]
      simp

theorem coordsAt_append (g : Graph) (node : Node) (i : Nat) (hi : i < g.nodes.length) :
    coordsAt { g with nodes := g.nodes ++ [node] } i = coordsAt g i := by
  unfold coordsAt
  simp only
  rw [getD_append_left _ _ _ _ hi]

theorem coordsAt_set_connected (g : Graph) (a dir b : Int) (i : Nat) :
    coordsAt (set_connected g a dir b) i = coordsAt g i := by
  rw [coordsAt_eq, coordsAt_eq, set_connected_x, set_connected_y]

theorem coordsAt_applyOp_off (g : Graph) (op : GOp) (i : Nat)
    (hoff : g.update_positions = false) (hi : i < g.nodes.length) :
    coordsAt (applyOp g op) i = coordsAt g i := by
  cases op with
  | pnode x y req =>
    show coordsAt (place_node x y req g).2 i = coordsAt g i
    cases hon : on_node g x y with
    | some nb =>
      rw [place_node_merge _ _ _ _ _ hon, update_position_at_off _ _ _ _ hoff]
    | none =>
      rw [place_node_create _ _ _ _ hon]
      simp only
      split
      · rw [coordsAt_set_connected, coordsAt_append _ _ _ hi]
      · rw [coordsAt_append _ _ _ hi]
  | pobject o req =>
    show coordsAt (place_object o req g).2 i = coordsAt g i
    cases hon : on_node g req.object_x req.object_y with
    | some nb =>
      cases hobj : nb.object_here with
      | true =>
        rw [place_object_reuse _ _ _ _ hon hobj, coordsAt_set_connected,
          update_position_at_off _ _ _ _ hoff]
      | false =>
        rw [place_object_create_nonobj _ _ _ _ hon hobj]
        simp only
        rw [coordsAt_set_connected, coordsAt_append _ _ _ hi]
    | none =>
      rw [place_object_create_none _ _ _ hon]
      simp only
      rw [coordsAt_set_connected, coordsAt_append _ _ _ hi]

theorem coordsAt_merge_blend (g : Graph) (x y : ℚ) (nb : Node)
    (hflag : g.update_positions = true)
    (hnb0 : 0 ≤ nb.id_this) (hnb1 : nb.id_this < (g.nodes.length : Int))
    (hnbg : getNodeD g nb.id_this = nb) :
    coordsAt (update_position_at g nb.id_this x y) nb.id_this.toNat
      = (0.3 * nb.x + 0.7 * x, 0.3 * nb.y + 0.7 * y) := by
  rw [coordsAt_eq]
  have hofn : Int.ofNat nb.id_this.toNat = nb.id_this := by
    rw [int_ofNat_eq]
    omega
  rw [hofn]
  unfold update_position_at
  rw [getNodeD_modifyNode_self g nb.id_this _ hnb0 (by omega)]
  rw [hnbg]
  simp [update_position, hflag]

/-- **C6.** Coordinate smoothing policy.  With the flag off, a waypoint's
stored coordinates never change after creation — across any sequence of
placement calls, every pre-existing waypoint keeps its coordinates, in
particular when a repeated report merges into it.  With the flag on, merging
an observation into a stored waypoint updates the stored coordinate to
`0.3·old + 0.7·observed` per axis, in both `place_node` (merge branch) and
`place_object` (object-reuse branch). -/
theorem smoothing_policy (g : Graph) (x y : ℚ) (req : PlaceNodeRequest)
    (nb : Node) (o : Int) :
    (g.update_positions = false →
      ∀ (ops : List GOp) (i : Nat), i < g.nodes.length →
        coordsAt (applyOps g ops) i = coordsAt g i) ∧
    (g.update_positions = true → IdsDense g → on_node g x y = some nb →
      coordsAt (place_node x y req g).2 nb.id_this.toNat
        = (0.3 * nb.x + 0.7 * x, 0.3 * nb.y + 0.7 * y)) ∧
    (g.update_positions = true → IdsDense g →
      on_node g req.object_x req.object_y = some nb → nb.object_here = true →
      coordsAt (place_object o req g).2 nb.id_this.toNat
        = (0.3 * nb.x + 0.7 * req.object_x, 0.3 * nb.y + 0.7 * req.object_y)) := by
  refine ⟨?_, ?_, ?_⟩
  · intro hoff ops
    induction ops generalizing g with
    | nil => intro i hi; rfl
    | cons op rest ih =>
      intro i hi
      show coordsAt (applyOps (applyOp g op) rest) i = coordsAt g i
      rw [ih (applyOp g op) (by rw [applyOp_flag]; exact hoff)
          i (lt_of_lt_of_le hi (applyOp_len_mono g op))]
      exact coordsAt_applyOp_off g op i hoff hi
  · intro hflag hdense hon
    obtain ⟨hnb0, hnb1, hnbg⟩ := on_node_some_facts g x y nb hdense hon
    rw [place_node_merge _ _ _ _ _ hon]
    exact coordsAt_merge_blend g x y nb hflag hnb0 hnb1 hnbg
  · intro hflag hdense hon hobj
    obtain ⟨hnb0, hnb1, hnbg⟩ := on_node_some_facts g _ _ nb hdense hon
    rw [place_object_reuse _ _ _ _ hon hobj, coordsAt_set_connected]
    exact coordsAt_merge_blend g _ _ nb hflag hnb0 hnb1 hnbg

/-- One-waypoint store with smoothing enabled. -/
def cgS : Graph := { nodes := [cn0], dist_thresh := 1, update_positions := true }

theorem on_cgS : on_node cgS (1/2) 0 = some cn0 := by
  refine (on_node_eq_some_iff cgS (1/2) 0 cn0).mpr ⟨0, by simp [cgS], rfl, ?_, ?_, by omega⟩
  · norm_num [dAt, sq_dist, cgS, cn0]
  · intro k hk
    simp only [cgS, List.length_cons, List.length_nil] at hk
    interval_cases k <;> norm_num [dAt, sq_dist, cgS, cn0]

/-- An object waypoint at (3, 0). -/
def cnObj : Node :=
  { id_this := 1, x := 3, y := 0, id_north := -2, id_east := -2,
    id_south := -2, id_west := -2, object_here := true }

/-- Two-waypoint store (one object) with smoothing enabled. -/
def cgObj : Graph :=
  { nodes := [cn0, cnObj], dist_thresh := 1, update_positions := true }

theorem on_cgObj : on_node cgObj (7/2) 0 = some cnObj := by
  refine (on_node_eq_some_iff cgObj (7/2) 0 cnObj).mpr ⟨1, by simp [cgObj], rfl, ?_, ?_, ?_⟩
  · norm_num [dAt, sq_dist, cgObj, cnObj]
  · intro k hk
    simp only [cgObj, List.length_cons, List.length_nil] at hk
    interval_cases k <;> norm_num [dAt, sq_dist, cgObj, cn0, cnObj]
  · intro k hk
    interval_cases k <;> norm_num [dAt, sq_dist, cgObj, cn0, cnObj]

/-- Closed instantiation of the smoothing policy: a merge with the flag off
leaves (0,0) unchanged; with the flag on, merging (1/2, 0) into a waypoint at
(0,0) gives (7/20, 0), and an object report at (7/2, 0) merged into an object
waypoint at (3, 0) gives (67/20, 0). -/
theorem smoothing_policy_witness :
    coordsAt (applyOps cg1 [GOp.pnode (9/10) 0 {}]) 0 = coordsAt cg1 0 ∧
    coordsAt (place_node (1/2) 0 {} cgS).2 0 = (7/20, 0) ∧
    coordsAt (place_object 0
      { object_x := 7/2, object_y := 0, object_direction := 1 } cgObj).2 1 = (67/20, 0) := by
  refine ⟨?_, ?_, ?_⟩
  · exact (smoothing_policy cg1 0 0 {} cn0 0).1 rfl [GOp.pnode (9/10) 0 {}] 0 (by decide)
  · have hh := (smoothing_policy cgS (1/2) 0 {} cn0 0).2.1 rfl
      (by intro i; fin_cases i <;> rfl) on_cgS
    exact hh.trans (by norm_num [cn0])
  · have hh := (smoothing_policy cgObj 0 0
      { object_x := 7/2, object_y := 0, object_direction := 1 } cnObj 0).2.2 rfl
      (by intro i; fin_cases i <;> rfl) on_cgObj rfl
    exact hh.trans (by norm_num [cnObj])
theorem dAt_coords (x y : ℚ) (g : Graph) (k : Nat) :
    dAt x y g.nodes k = sq_dist x y (coordsAt g k).1 (coordsAt g k).2 := rfl

/-- The id of a waypoint found by `on_node` equals its storage index, on an
id-dense store. -/
theorem on_node_found_id (g : Graph) (x y : ℚ) (nb : Node) (c : Nat)
    (hdense : IdsDense g) (hc : c < g.nodes.length) (hnb : nb = g.nodes.getD c default) :
    nb.id_this = Int.ofNat c := by
  have h1 := (idsDense_iff g).mp hdense c hc
  unfold getNodeD at h1
  rw [toNat_ofNat] at h1
  rw [hnb]
  exact h1

theorem coordsAt_update_other (g : Graph) (j : Int) (nx ny : ℚ) (k : Nat)
    (hj0 : 0 ≤ j) (hne : Int.ofNat k ≠ j) :
    coordsAt (update_position_at g j nx ny) k = coordsAt g k := by
  rw [coordsAt_eq, coordsAt_eq]
  unfold update_position_at
  rw [getNodeD_modifyNode_ne g j (Int.ofNat k) _ hj0 (by rw [int_ofNat_eq]; omega)
    (Ne.symm hne)]

/-- Facts about the state after the creation branch of `place_node`:
size grows by one, configuration unchanged, old coordinates unchanged, the
new waypoint sits at index `old size` with coordinates `(x, y)` and id equal
to its index. -/
theorem place_node_create_facts (x y : ℚ) (req : PlaceNodeRequest) (g : Graph)
    (hon : on_node g x y = none) :
    (place_node x y req g).2.nodes.length = g.nodes.length + 1 ∧
    (place_node x y req g).2.dist_thresh = g.dist_thresh ∧
    (place_node x y req g).2.update_positions = g.update_positions ∧
    (∀ k, k < g.nodes.length → coordsAt (place_node x y req g).2 k = coordsAt g k) ∧
    coordsAt (place_node x y req g).2 g.nodes.length = (x, y) ∧
    (getNodeD (place_node x y req g).2 (Int.ofNat g.nodes.length)).id_this
      = Int.ofNat g.nodes.length ∧
    (place_node x y req g).1.id_this = Int.ofNat g.nodes.length := by
  rw [place_node_create _ _ _ _ hon]
  simp only
  have hg1 : getNodeD ({ g with nodes := g.nodes ++
      [{ init_node {} req.north_blocked req.east_blocked
           req.south_blocked req.west_blocked with
         x := x, y := y, id_this := Int.ofNat g.nodes.length }] } : Graph)
      (Int.ofNat g.nodes.length) =
      { init_node {} req.north_blocked req.east_blocked
          req.south_blocked req.west_blocked with
        x := x, y := y, id_this := Int.ofNat g.nodes.length } := by
    unfold getNodeD
    rw [toNat_ofNat]
    exact getD_append_length ..
  split
  · refine ⟨by rw [set_connected_length]; simp, by rw [set_connected_dist_thresh],
      by rw [set_connected_update_positions], ?_, ?_, ?_, ?_⟩
    · intro k hk
      rw [coordsAt_set_connected, coordsAt_append _ _ _ hk]
    · rw [coordsAt_eq, set_connected_x, set_connected_y, hg1]
    · rw [set_connected_id_this, hg1]
    · rw [set_connected_id_this, hg1]
  · refine ⟨by simp, rfl, rfl, ?_, ?_, ?_, ?_⟩
    · intro k hk
      rw [coordsAt_append _ _ _ hk]
    · rw [coordsAt_eq, hg1]
    · rw [hg1]
    · rw [hg1]

/-- On an id-dense store with positive threshold, the second identical report
merges back into the waypoint the first call returned: same id, same size,
no link changed. -/
theorem second_report_merges (g : Graph) (x y : ℚ) (req req2 : PlaceNodeRequest)
    (ht : 0 < g.dist_thresh) (hdense : IdsDense g) :
    (place_node x y req2 ((place_node x y req g).2)).1.id_this
      = (place_node x y req g).1.id_this ∧
    (place_node x y req2 ((place_node x y req g).2)).2.nodes.length
      = (place_node x y req g).2.nodes.length ∧
    (∀ j : Int, linksOf (getNodeD (place_node x y req2 ((place_node x y req g).2)).2 j)
      = linksOf (getNodeD (place_node x y req g).2 j)) := by
  cases hon : on_node g x y with
  | some nb =>
    obtain ⟨c, hc, hnb, hdist, hmin, hfirst⟩ := (on_node_eq_some_iff g x y nb).mp hon
    have hid : nb.id_this = Int.ofNat c := on_node_found_id g x y nb c hdense hc hnb
    rw [place_node_merge _ _ _ _ _ hon]
    cases hflag : g.update_positions with
    | false =>
      rw [update_position_at_off _ _ _ _ hflag]
      rw [place_node_merge _ _ _ _ _ hon, update_position_at_off _ _ _ _ hflag]
      exact ⟨rfl, rfl, fun j => rfl⟩
    | true =>
      have hg1len : (update_position_at g nb.id_this x y).nodes.length = g.nodes.length :=
        update_position_at_length ..
      have hg1t : (update_position_at g nb.id_this x y).dist_thresh = g.dist_thresh :=
        update_position_at_dist_thresh ..
      have hcoordc : coordsAt (update_position_at g nb.id_this x y) nb.id_this.toNat
          = (0.3 * nb.x + 0.7 * x, 0.3 * nb.y + 0.7 * y) := by
        refine coordsAt_merge_blend g x y nb hflag (by rw [hid, int_ofNat_eq]; omega)
          (by rw [hid, int_ofNat_eq]; omega) ?_
        rw [hid]
        unfold getNodeD
        rw [toNat_ofNat]
        exact hnb.symm
      have hcn : nb.id_this.toNat = c := by
        rw [hid]
        rfl
      have hnbx : (coordsAt g c).1 = nb.x := by
        rw [coordsAt_eq]
        unfold getNodeD
        rw [toNat_ofNat, ← hnb]
      have hnby : (coordsAt g c).2 = nb.y := by
        rw [coordsAt_eq]
        unfold getNodeD
        rw [toNat_ofNat, ← hnb]
      have hdc : dAt x y (update_position_at g nb.id_this x y).nodes c
          = 9 / 100 * dAt x y g.nodes c := by
        rw [dAt_coords, dAt_coords, ← hcn, hcoordc, hcn, hnbx, hnby, sq_dist_blend]
      have hdother : ∀ k, k ≠ c →
          dAt x y (update_position_at g nb.id_this x y).nodes k = dAt x y g.nodes k := by
        intro k hk
        rw [dAt_coords, dAt_coords,
          coordsAt_update_other g nb.id_this x y k (by rw [hid, int_ofNat_eq]; omega)
            (by rw [hid, int_ofNat_eq, int_ofNat_eq]; omega)]
      have hnonneg := sq_dist_nonneg x y (coordsAt g c).1 (coordsAt g c).2
      rw [← dAt_coords] at hnonneg
      have hon2 : on_node (update_position_at g nb.id_this x y) x y
          = some ((update_position_at g nb.id_this x y).nodes.getD c default) := by
        refine (on_node_eq_some_iff _ x y _).mpr ⟨c, by rw [hg1len]; exact hc, rfl, ?_, ?_, ?_⟩
        · rw [hg1t, hdc]
          nlinarith [hdist, hnonneg]
        · intro k hk
          rw [hg1len] at hk
          by_cases hkc : k = c
          · rw [hkc]
          · rw [hdother k hkc, hdc]
            nlinarith [hmin k hk, hnonneg]
        · intro k hk
          rw [hdother k (by omega), hdc]
          nlinarith [hfirst k hk, hnonneg]
      rw [place_node_merge _ _ _ _ _ hon2]
      have hid2 : ((update_position_at g nb.id_this x y).nodes.getD c default).id_this
          = Int.ofNat c := by
        have hd1 : IdsDense (update_position_at g nb.id_this x y) :=
          idsDense_of_preserved g _ (update_position_at_length ..)
            (fun j => update_position_at_id_this ..) hdense
        have := (idsDense_iff _).mp hd1 c (by rw [hg1len]; exact hc)
        unfold getNodeD at this
        rw [toNat_ofNat] at this
        exact this
      refine ⟨?_, by rw [update_position_at_length], ?_⟩
      · have hd1 : IdsDense (update_position_at g nb.id_this x y) :=
          idsDense_of_preserved g _ (update_position_at_length ..)
            (fun j => update_position_at_id_this ..) hdense
        have hL : (getNodeD (update_position_at (update_position_at g nb.id_this x y)
            ((update_position_at g nb.id_this x y).nodes.getD c default).id_this x y)
            ((update_position_at g nb.id_this x y).nodes.getD c default).id_this).id_this
            = Int.ofNat c := by
          rw [update_position_at_id_this, hid2]
          have := (idsDense_iff _).mp hd1 c (by rw [hg1len]; exact hc)
          unfold getNodeD at this ⊢
          rw [toNat_ofNat] at this ⊢
          exact this
        have hR : (getNodeD (update_position_at g nb.id_this x y) nb.id_this).id_this
            = Int.ofNat c := by
          rw [update_position_at_id_this, hid]
          have := (idsDense_iff _).mp hdense c hc
          unfold getNodeD at this ⊢
          rw [toNat_ofNat] at this ⊢
          exact this
        exact hL.trans hR.symm
      · intro j
        rw [update_position_at_links]
  | none =>
    obtain ⟨hlen1, ht1, hflag1, hcold, hcnew, hidnew, hfirstid⟩ :=
      place_node_create_facts x y req g hon
    have hnone := (on_node_eq_none_iff g x y).mp hon
    have hon2 : on_node (place_node x y req g).2 x y
        = some ((place_node x y req g).2.nodes.getD g.nodes.length default) := by
      refine (on_node_eq_some_iff _ x y _).mpr
        ⟨g.nodes.length, by omega, rfl, ?_, ?_, ?_⟩
      · rw [dAt_coords, hcnew, sq_dist_self, ht1]
        positivity
      · intro k hk
        rw [dAt_coords, hcnew, sq_dist_self]
        exact sq_dist_nonneg ..
      · intro k hk
        rw [dAt_coords, hcnew, sq_dist_self, dAt_coords, hcold k hk, ← dAt_coords]
        have := hnone k hk
        rw [not_lt] at this
        have ht2 : 0 < g.dist_thresh * g.dist_thresh := by positivity
        linarith
    have hid2 : ((place_node x y req g).2.nodes.getD g.nodes.length default).id_this
        = Int.ofNat g.nodes.length := by
      have := hidnew
      unfold getNodeD at this
      rw [toNat_ofNat] at this
      exact this
    rw [place_node_merge _ _ _ _ _ hon2]
    refine ⟨?_, by rw [update_position_at_length], ?_⟩
    · have hL : (getNodeD (update_position_at (place_node x y req g).2
          ((place_node x y req g).2.nodes.getD g.nodes.length default).id_this x y)
          ((place_node x y req g).2.nodes.getD g.nodes.length default).id_this).id_this
          = Int.ofNat g.nodes.length := by
        rw [update_position_at_id_this, hid2]
        exact hidnew
      exact hL.trans hfirstid.symm
    · intro j
      rw [update_position_at_links]

/-- When the first report creates a new waypoint, a second report farther
away than the dedup threshold returns a different id (whether it creates or
merges into an older waypoint). -/
theorem far_report_distinct (g : Graph) (x y x2 y2 : ℚ) (req req2 : PlaceNodeRequest)
    (hdense : IdsDense g) (hon : on_node g x y = none)
    (hfar : g.dist_thresh * g.dist_thresh < sq_dist x y x2 y2) :
    (place_node x2 y2 req2 ((place_node x y req g).2)).1.id_this
      ≠ (place_node x y req g).1.id_this := by
  obtain ⟨hlen1, ht1, hflag1, hcold, hcnew, hidnew, hfirstid⟩ :=
    place_node_create_facts x y req g hon
  have hd1 : IdsDense (place_node x y req g).2 := idsDense_place_node x y req g hdense
  cases hon2 : on_node (place_node x y req g).2 x2 y2 with
  | none =>
    obtain ⟨_, _, _, _, _, _, hsecid⟩ := place_node_create_facts x2 y2 req2 _ hon2
    rw [hsecid, hfirstid, hlen1, int_ofNat_eq, int_ofNat_eq]
    omega
  | some nb2 =>
    obtain ⟨c2, hc2, hnb2, hdist2, _, _⟩ := (on_node_eq_some_iff _ x2 y2 nb2).mp hon2
    have hid2 : nb2.id_this = Int.ofNat c2 := on_node_found_id _ x2 y2 nb2 c2 hd1 hc2 hnb2
    rw [place_node_merge _ _ _ _ _ hon2, update_position_at_id_this]
    have hgid : (getNodeD (place_node x y req g).2 nb2.id_this).id_this = Int.ofNat c2 := by
      rw [hid2]
      have := (idsDense_iff _).mp hd1 c2 hc2
      unfold getNodeD at this ⊢
      rw [toNat_ofNat] at this ⊢
      exact this
    rw [hgid, hfirstid]
    intro heq
    have hc2len : c2 = g.nodes.length := by
      rw [int_ofNat_eq, int_ofNat_eq] at heq
      omega
    rw [hc2len, dAt_coords, hcnew, ht1] at hdist2
    have hcomm := sq_dist_comm x2 y2 x y
    simp only at hdist2
    linarith

/-- **C4 (amended).** With a positive dedup threshold, on an id-dense store:
repeating the same report `(x, y)` returns the same waypoint id both times,
creates no second waypoint and mutates no links on the second call (with or
without smoothing).  A second report farther away than the threshold yields a
distinct id whenever the first report created a new waypoint (in particular
on an empty map); when both reports merge into a pre-existing waypoint lying
between them the ids can coincide (see the counterexample). -/
theorem place_node_idempotent_amended (g : Graph) (x y x2 y2 : ℚ)
    (req req2 : PlaceNodeRequest) (ht : 0 < g.dist_thresh) (hdense : IdsDense g) :
    ((place_node x y req ((place_node x y req g).2)).1.id_this
        = (place_node x y req g).1.id_this ∧
     (place_node x y req ((place_node x y req g).2)).2.nodes.length
        = (place_node x y req g).2.nodes.length ∧
     (∀ j : Int, linksOf (getNodeD (place_node x y req ((place_node x y req g).2)).2 j)
        = linksOf (getNodeD (place_node x y req g).2 j))) ∧
    (on_node g x y = none →
      g.dist_thresh * g.dist_thresh < sq_dist x y x2 y2 →
      (place_node x2 y2 req2 ((place_node x y req g).2)).1.id_this
        ≠ (place_node x y req g).1.id_this) :=
  ⟨second_report_merges g x y req req ht hdense,
   fun hon hfar => far_report_distinct g x y x2 y2 req req2 hdense hon hfar⟩

/-- Closed instantiation of the amended idempotence theorem on the reachable
one-waypoint store: repeating (9/10, 0) returns the same id; after placing
(10, 0) (a creation), the far report (20, 0) returns a different id. -/
theorem place_node_idempotent_amended_witness :
    (place_node (9/10) 0 {} ((place_node (9/10) 0 {} cg1).2)).1.id_this
      = (place_node (9/10) 0 {} cg1).1.id_this ∧
    (place_node 20 0 {} ((place_node 10 0 {} cg1).2)).1.id_this
      ≠ (place_node 10 0 {} cg1).1.id_this := by
  constructor
  · exact (place_node_idempotent_amended cg1 (9/10) 0 0 0 {} {}
      (by norm_num [cg1]) (by intro i; fin_cases i <;> rfl)).1.1
  · exact (place_node_idempotent_amended cg1 10 0 20 0 {} {}
      (by norm_num [cg1]) (by intro i; fin_cases i <;> rfl)).2
      on_cg1_far (by norm_num [cg1, sq_dist])
end RobotNav
